import Mathlib

/-!
Shallow embedding of the EMA page parser core
(`src/parsers/ema_parser.py` together with `src/parsers/data_classes.py`).

Modelling conventions:

* A DOM tree is the inductive `Node`; element children keep document order and
  text nodes (bs4 `NavigableString`s) are explicit, so that positional paths
  (`List Nat` of child indices) faithfully model CPython object identity
  (`id()`), which the source uses for its visited set.
* String helpers are re-implemented over `List Char` by structural recursion so
  that every definition evaluates inside the kernel (`rfl` / `decide`).
* The mutually recursive walk (`_parse_children`, the component dispatch,
  `_parse_accordion`, `_parse_blockquote`) is embedded with an explicit fuel
  argument that strictly decreases at every call, which makes the definitions
  structurally recursive and hence kernel-computable.  Python has no fuel; all
  general theorems below quantify over every fuel value, and every concrete
  evaluation uses fuel that is visibly sufficient (the computed result matches
  the hand-traced run of the source).
* Mutable state (`self.links`, `self._processed_elements`) is threaded as an
  explicit `PState` value; `MarkdownConverter` renderers return the possibly
  mutated block next to the rendered fragment, because `_render_table` pads
  rows in place.
-/

/-! ## String utilities (Python `str` semantics on `List Char`) -/

/-- Whitespace characters of Python's `\s` for ASCII text (`str.strip` agrees
on these). -/
def isPySpace (c : Char) : Bool :=
  c == ' ' || c == '\t' || c == '\n' || c == '\r' || c == '\x0b' || c == '\x0c'

def pyStripChars (cs : List Char) : List Char :=
  ((cs.dropWhile isPySpace).reverse.dropWhile isPySpace).reverse

/-- Python `str.strip()`. -/
def pyStrip (s : String) : String :=
  String.mk (pyStripChars s.data)

/-- Collapses every maximal whitespace run to a single space; the flag records
whether the previous kept character closed a whitespace run. -/
def collapseRunsAux : Bool → List Char → List Char
  | _, [] => []
  | prevWs, c :: cs =>
    if isPySpace c then
      if prevWs then collapseRunsAux true cs else ' ' :: collapseRunsAux true cs
    else c :: collapseRunsAux false cs

/-- Python `re.sub(r'\s+', ' ', s).strip()` as used by `_get_text`. -/
def normalizeWs (s : String) : String :=
  pyStrip (String.mk (collapseRunsAux false s.data))

def charsIsPref : List Char → List Char → Bool
  | [], _ => true
  | _ :: _, [] => false
  | a :: as, b :: bs => a == b && charsIsPref as bs

/-- Python `s.startswith(t)`. -/
def strStarts (s t : String) : Bool :=
  charsIsPref t.data s.data

def charsContainsSub (needle : List Char) : List Char → Bool
  | [] => needle.isEmpty
  | c :: cs => charsIsPref needle (c :: cs) || charsContainsSub needle cs

/-- Python `needle in hay` on strings. -/
def strContainsSub (hay needle : String) : Bool :=
  charsContainsSub needle.data hay.data

/-- Python `str.replace` (all non-overlapping occurrences, left to right).
The counter starts at the haystack length and dominates the number of steps,
keeping the recursion structural; it never runs out because every step
consumes at least one character.  Needles here are never empty. -/
def charsReplaceAux (needle repl : List Char) : Nat → List Char → List Char
  | 0, hay => hay
  | _ + 1, [] => []
  | n + 1, c :: cs =>
    if !needle.isEmpty && charsIsPref needle (c :: cs) then
      repl ++ charsReplaceAux needle repl n ((c :: cs).drop needle.length)
    else
      c :: charsReplaceAux needle repl n cs

def strReplace (s needle repl : String) : String :=
  String.mk (charsReplaceAux needle.data repl.data s.data.length s.data)

def joinSepChars (sep : List Char) : List (List Char) → List Char
  | [] => []
  | [x] => x
  | x :: y :: rest => x ++ sep ++ joinSepChars sep (y :: rest)

/-- Python `sep.join(xs)`. -/
def joinSep (sep : String) (xs : List String) : String :=
  String.mk (joinSepChars sep.data (xs.map String.data))

def splitNlAux (cur : List Char) : List Char → List (List Char)
  | [] => [cur.reverse]
  | c :: cs => if c == '\n' then cur.reverse :: splitNlAux [] cs else splitNlAux (c :: cur) cs

/-- Python `s.split('\n')`; note `"".split('\n') == ['']`. -/
def splitNl (s : String) : List String :=
  (splitNlAux [] s.data).map String.mk

/-- Python `s[:n]`. -/
def strTake (s : String) (n : Nat) : String :=
  String.mk (s.data.take n)

def digitChar : Nat → Char
  | 0 => '0' | 1 => '1' | 2 => '2' | 3 => '3' | 4 => '4'
  | 5 => '5' | 6 => '6' | 7 => '7' | 8 => '8' | _ => '9'

def natDigitsAux : Nat → Nat → List Char
  | 0, _ => []
  | n + 1, k => if k < 10 then [digitChar k] else natDigitsAux n (k / 10) ++ [digitChar (k % 10)]

/-- Decimal rendering of a natural number (Python `str(n)` / f-string). -/
def natToStr (k : Nat) : String :=
  String.mk (natDigitsAux (k + 1) k)

def catMap {α β : Type} (f : α → List β) : List α → List β
  | [] => []
  | a :: as => f a ++ catMap f as

/-! ## DOM model -/

/-- A parsed DOM node: either a text node (bs4 `NavigableString`) or an element
with tag name, class token list, remaining attributes, and children in document
order. -/
inductive Node where
  | text (s : String)
  | elem (tag : String) (classes : List String) (attrs : List (String × String)) (children : List Node)

def tagOf : Node → String
  | .text _ => ""
  | .elem t _ _ _ => t

def classesOf : Node → List String
  | .text _ => []
  | .elem _ cls _ _ => cls

def childrenOf : Node → List Node
  | .text _ => []
  | .elem _ _ _ cs => cs

def isElem : Node → Bool
  | .text _ => false
  | .elem _ _ _ _ => true

/-- Attribute lookup, bs4 `tag.get(key)` (the `class` attribute is kept apart). -/
def getAttr (n : Node) (key : String) : Option String :=
  match n with
  | .text _ => none
  | .elem _ _ attrs _ => (attrs.find? (fun kv => kv.1 == key)).map (fun kv => kv.2)

def hasAttr (n : Node) (key : String) : Bool :=
  (getAttr n key).isSome

mutual

def nodeCount : Node → Nat
  | .text _ => 1
  | .elem _ _ _ cs => 1 + nodeListCount cs

def nodeListCount : List Node → Nat
  | [] => 0
  | c :: cs => nodeCount c + nodeListCount cs

end

mutual

/-- All descendant text-node strings in document order (bs4 `tag.strings`). -/
def rawStrings : Node → List String
  | .text s => [s]
  | .elem _ _ _ cs => rawStringsL cs

def rawStringsL : List Node → List String
  | [] => []
  | c :: cs => rawStrings c ++ rawStringsL cs

end

/-- The source's `_get_text`: bs4 `get_text(separator=' ', strip=True)` (strip
each descendant string, drop empties, join with one space) followed by
whitespace normalization. -/
def getText (n : Node) : String :=
  normalizeWs (joinSep " " (((rawStrings n).map pyStrip).filter (fun s => !(s == ""))))

mutual

/-- All descendants (text nodes included) paired with their positional path,
in document (pre-)order; the path of child `i` of a node at path `p` is
`p ++ [i]`. -/
def descendantsWP : Node → List Nat → List (Node × List Nat)
  | .text _, _ => []
  | .elem _ _ _ cs, p => descListWP cs p 0

def descListWP : List Node → List Nat → Nat → List (Node × List Nat)
  | [], _, _ => []
  | c :: cs, p, i => (c, p ++ [i]) :: (descendantsWP c (p ++ [i]) ++ descListWP cs p (i + 1))

end

/-- bs4 `find_all(pred)`: matching element descendants with their paths. -/
def findAllWP (n : Node) (p : List Nat) (pred : Node → Bool) : List (Node × List Nat) :=
  (descendantsWP n p).filter (fun x => isElem x.1 && pred x.1)

/-- bs4 `find(pred)` with the match's path. -/
def findWP (n : Node) (p : List Nat) (pred : Node → Bool) : Option (Node × List Nat) :=
  (findAllWP n p pred).head?

/-- bs4 `find_all(pred)` when only the nodes are needed. -/
def findAllN (n : Node) (pred : Node → Bool) : List Node :=
  (findAllWP n [] pred).map (fun x => x.1)

/-- bs4 `find(pred)` when only the node is needed. -/
def findN (n : Node) (pred : Node → Bool) : Option Node :=
  (findAllN n pred).head?

/-- bs4 `find_all(pred, recursive=False)`: matching direct element children. -/
def childElems (n : Node) (pred : Node → Bool) : List Node :=
  (childrenOf n).filter (fun c => isElem c && pred c)

/-- bs4 string `class_` filter: exact class-token membership. -/
def hasClass (tok : String) (n : Node) : Bool :=
  (classesOf n).contains tok

/-- bs4 callable `class_` filter of shape `lambda x: x and sub in x`: the
callable is applied to each class token, so this is a substring test on each
token (and `False` when there are no tokens). -/
def anyClassSub (sub : String) (n : Node) : Bool :=
  (classesOf n).any (fun c => strContainsSub c sub)

def tagIs (t : String) (n : Node) : Bool :=
  tagOf n == t

/-- bs4 `find('a', href=True)` predicate. -/
def anchorWithHref (n : Node) : Bool :=
  tagIs "a" n && hasAttr n "href"

/-! ## Data classes (`src/parsers/data_classes.py`) -/

structure Link where
  text : String
  href : String
deriving DecidableEq

/-- The tagged union of content blocks.  Fields follow the dataclasses;
`DescriptionListBlock.items` holds `[term, description]` pairs and is modelled
with `Prod`, and `AccordionItem` is the pair (title, content). -/
inductive Block where
  | heading (level : Nat) (text : String)
  | paragraph (text : String)
  | list (ordered : Bool) (items : List String)
  | table (headers : List String) (rows : List (List String))
  | file (title : String) (reference_number document_type language file_size
      file_format first_published last_updated url : Option String)
  | description_list (items : List (String × String))
  | blockquote (content : List Block)
  | banner (title : String) (summary image_url link_url : Option String)
  | date (date : String) (display_text : String)
  | card (title : String) (text link_url image_url : Option String)
      (metadata : Option (List String))
  | listing (variant : Option String) (items : List Block)
  | alert (variant : Option String) (message : String)
  | accordion (items : List (String × List Block))

/-- Parser run-state: the accumulated link list and the visited set
(`self._processed_elements`, a set of `id()`s, modelled as the list of visited
paths). -/
structure PState where
  links : List Link
  processed : List (List Nat)
deriving DecidableEq

/-- Result shape of `EmaPageParser.parse`. -/
structure ParseResult where
  blocks : List Block
  links : List Link

/-! ## Parser constants -/

def SKIP_TAGS : List String :=
  ["script", "style", "noscript", "svg", "button", "form", "input"]

def SKIP_CLASSES : List String :=
  ["bcl-inpage-navigation", "breadcrumb", "dropdown-menu"]

/-- Ordered component selector table; the second component is the Python
extractor method name used by the `getattr` dispatch. -/
def COMPONENT_SELECTORS : List (String × String) :=
  [("bcl-file", "_parse_file"),
   ("accordion", "_parse_accordion"),
   ("bcl-content-banner", "_parse_banner"),
   ("bcl-listing", "_parse_listing"),
   ("bcl-date-block", "_parse_date_block"),
   ("listing-item", "_parse_card"),
   ("alert", "_parse_alert")]

/-- The loop body of `_match_component`: first selector whose class name is in
the element's class set wins. -/
def matchSelectors : List (String × String) → List String → Option String
  | [], _ => none
  | (clsName, m) :: rest, classes =>
    if classes.contains clsName then some m else matchSelectors rest classes

def matchComponent (classes : List String) : Option String :=
  matchSelectors COMPONENT_SELECTORS classes

/-- The source's `_should_skip` (the caller filters out text nodes already;
they are reported as skippable here exactly as `isinstance` does). -/
def shouldSkip (n : Node) (p : List Nat) (st : PState) : Bool :=
  match n with
  | .text _ => true
  | .elem tag cls _ _ =>
    SKIP_TAGS.contains tag || st.processed.contains p ||
      cls.any (fun c => SKIP_CLASSES.contains c) || tag == "nav"

/-- The source's `_mark_processed`: the element itself and every element
descendant become visited. -/
def markProcessed (n : Node) (p : List Nat) (st : PState) : PState :=
  { st with
    processed := st.processed ++ p ::
      ((descendantsWP n p).filterMap (fun x => if isElem x.1 then some x.2 else none)) }

/-! ## Link extraction -/

/-- The source's `_extract_link`. -/
def extractLink (a : Node) (st : PState) : PState :=
  let href := (getAttr a "href").getD ""
  if href == "" || strStarts href "#" || strStarts href "javascript:" then st
  else
    let text := getText a
    let text := if text == "" then href else text
    { st with links := st.links ++ [⟨text, href⟩] }

/-- The source's `_extract_links`: every descendant anchor with an href. -/
def extractLinks (el : Node) (st : PState) : PState :=
  (findAllN el anchorWithHref).foldl (fun s a => extractLink a s) st

def extractLinksAll (els : List Node) (st : PState) : PState :=
  els.foldl (fun s e => extractLinks e s) st

/-! ## Non-recursive extractors -/

/-- Heading level from the tag name (`int(el.name[1])`). -/
def headingLevel (tag : String) : Nat :=
  match tag.data with
  | _ :: d :: _ => d.toNat - '0'.toNat
  | _ => 0

/-- The source's `_parse_heading`. -/
def parseHeading (el : Node) (st : PState) : Option Block × PState :=
  let text := getText el
  if text == "" then (none, st)
  else
    let level := headingLevel (tagOf el)
    let st' := extractLinks el st
    (some (.heading level text), st')

/-- The source's `_parse_paragraph`. -/
def parseParagraph (el : Node) (st : PState) : Option Block × PState :=
  let text := getText el
  if text == "" then (none, st)
  else
    let st' := extractLinks el st
    (some (.paragraph text), st')

/-- The item loop of `_parse_list` over all `li` descendants. -/
def listItemsLoop : List Node → PState → List String × PState
  | [], st => ([], st)
  | li :: lis, st =>
    let text := getText li
    if text == "" then listItemsLoop lis st
    else
      let st' := extractLinks li st
      let r := listItemsLoop lis st'
      (text :: r.1, r.2)

/-- The source's `_parse_list`. -/
def parseList (el : Node) (st : PState) : Option Block × PState :=
  let r := listItemsLoop (findAllN el (tagIs "li")) st
  if r.1.isEmpty then (none, r.2)
  else (some (.list (tagOf el == "ol") r.1), r.2)

def cellPred (n : Node) : Bool :=
  tagIs "td" n || tagIs "th" n

/-- The body-row loop of `_parse_table`: a row whose cells are all `th` is
consumed as the header row while headers are still empty; a row with no cells
is skipped. -/
def tableRowsLoop : List Node → List String → PState → List String × List (List String) × PState
  | [], hs, st => (hs, [], st)
  | tr :: trs, hs, st =>
    let cells := findAllN tr cellPred
    if hs.isEmpty && cells.all (fun c => tagOf c == "th") then
      tableRowsLoop trs (cells.map getText) (extractLinksAll cells st)
    else
      let row := cells.map getText
      let st' := extractLinksAll cells st
      let r := tableRowsLoop trs hs st'
      (r.1, (if row.isEmpty then r.2.1 else row :: r.2.1), r.2.2)

/-- The source's `_parse_table`. -/
def parseTable (el : Node) (st : PState) : Option Block × PState :=
  let hs0st :=
    match findN el (tagIs "thead") with
    | some thead =>
      ((findAllN thead (tagIs "th")).map getText,
        extractLinksAll (findAllN thead (tagIs "th")) st)
    | none => ([], st)
  let tbody := (findN el (tagIs "tbody")).getD el
  let trs := childElems tbody (tagIs "tr")
  let r := tableRowsLoop trs hs0st.1 hs0st.2
  if r.1.isEmpty && r.2.1.isEmpty then (none, r.2.2)
  else (some (.table r.1 r.2.1), r.2.2)

/-! ## File component (`_parse_file`) -/

/-- Models the Python regex extraction
`re.match(r'^([^(]+(?:\([A-Z]{2}\))?)', lang_text)` followed by
`.group(1).strip()`: a non-empty leading run of characters other than an
opening parenthesis, optionally extended by an immediately following
two-uppercase-letter parenthesized code; no match when the text starts with a
parenthesis. -/
def langExtract (s : String) : Option String :=
  let cs := s.data
  let lead := cs.takeWhile (fun c => !(c == '('))
  if lead.isEmpty then none
  else
    match cs.drop lead.length with
    | '(' :: a :: b :: ')' :: _ =>
      if a.isUpper && b.isUpper then some (pyStrip (String.mk (lead ++ ['('] ++ [a, b] ++ [')'])))
      else some (pyStrip (String.mk lead))
    | _ => some (pyStrip (String.mk lead))

/-- Indices of dashes in `seg` usable as the separator of
`\(([^)]+)\s*-\s*([^)]+)\)`: at least one character before and after. -/
def viableDashes (seg : List Char) : List Nat :=
  seg.enum.filterMap (fun x =>
    if x.2 == '-' && 1 ≤ x.1 && x.1 + 2 ≤ seg.length then some x.1 else none)

/-- One attempted match of the size/format regex inside a parenthesized
segment: the greedy first group extends to the last usable dash. -/
def metaTryAt (seg : List Char) : Option (String × String) :=
  match (viableDashes seg).getLast? with
  | some k => some (pyStrip (String.mk (seg.take k)), pyStrip (String.mk (seg.drop (k + 1))))
  | none => none

/-- Models `re.search(r'\(([^)]+)\s*-\s*([^)]+)\)', s)` with both groups
stripped: leftmost opening parenthesis whose segment (up to the next closing
parenthesis) contains a usable dash. -/
def metaSearch : List Char → Option (String × String)
  | [] => none
  | c :: cs =>
    if c == '(' then
      let seg := cs.takeWhile (fun d => !(d == ')'))
      if seg.length < cs.length then
        match metaTryAt seg with
        | some r => some r
        | none => metaSearch cs
      else metaSearch cs
    else metaSearch cs

def metaExtract (s : String) : Option (String × String) :=
  metaSearch s.data

/-- Date fields of `_parse_file`: a class-substring-matched container whose
nested `time` prefers a non-empty `datetime` attribute truncated to 10
characters, else the `time` element's text. -/
def timeField (el : Node) (clsSub : String) : Option String :=
  match findN el (anyClassSub clsSub) with
  | some container =>
    match findN container (tagIs "time") with
    | some t =>
      match getAttr t "datetime" with
      | some d => if d == "" then some (getText t) else some (strTake d 10)
      | none => some (getText t)
    | none => none
  | none => none

/-- The source's `_parse_file`.  Note that the first href-carrying anchor is
recorded on the link list directly (text `block.title or text(anchor)`, raw
href) without going through `_extract_link`, and that this happens before the
final `title`/`url` emptiness check. -/
def parseFile (el : Node) (st : PState) : Option Block × PState :=
  let document_type := getAttr el "data-ema-document-type"
  let title :=
    match findN el (hasClass "file-title") with
    | some t => getText t
    | none => ""
  let reference_number :=
    match findN el (anyClassSub "reference-number") with
    | some ref =>
      match findN ref (hasClass "value") with
      | some v => some (getText v)
      | none => none
    | none => none
  let langInfo :=
    match findN el (hasClass "language-meta") with
    | some langEl =>
      let lang_text := getText langEl
      (langExtract lang_text, metaExtract lang_text)
    | none => (none, none)
  let language := langInfo.1
  let file_size := langInfo.2.map (fun x => x.1)
  let file_format := langInfo.2.map (fun x => x.2)
  let first_published := timeField el "first-published"
  let last_updated := timeField el "last-updated"
  let urlSt :=
    match findN el anchorWithHref with
    | some a =>
      let href := (getAttr a "href").getD ""
      (some href,
        { st with links := st.links ++ [Link.mk (if title == "" then getText a else title) href] })
    | none => (none, st)
  let url := urlSt.1
  let st' := urlSt.2
  if title == "" && (match url with | some u => u == "" | none => true) then (none, st')
  else
    (some (.file title reference_number document_type language file_size file_format
        first_published last_updated url), st')

/-! ## Banner, date block, card, listing, alert (`_parse_banner` etc.) -/

/-- Image url shared by banner and card: first `img` with a truthy `src`. -/
def imageUrlOf (el : Node) : Option String :=
  match findN el (tagIs "img") with
  | some img =>
    match getAttr img "src" with
    | some src => if src == "" then none else some src
    | none => none
  | none => none

/-- The source's `_parse_banner`. -/
def parseBanner (el : Node) (st : PState) : Option Block × PState :=
  let titleSt :=
    match (findN el (hasClass "content-banner-title")).orElse (fun _ => findN el (tagIs "h1")) with
    | some t => (getText t, extractLinks t st)
    | none => ("", st)
  let title := titleSt.1
  let summarySt :=
    match (findN el (hasClass "content")).orElse (fun _ => findN el (hasClass "card-text")) with
    | some c => (some (getText c), extractLinks c titleSt.2)
    | none => (none, titleSt.2)
  let image_url := imageUrlOf el
  let linkSt :=
    match findN el anchorWithHref with
    | some a => (some ((getAttr a "href").getD ""), extractLink a summarySt.2)
    | none => (none, summarySt.2)
  if title == "" then (none, linkSt.2)
  else (some (.banner title summarySt.1 image_url linkSt.1), linkSt.2)

/-- The source's `_parse_date_block`; an empty `datetime` attribute is falsy
and leaves the date empty. -/
def parseDateBlock (el : Node) (st : PState) : Option Block × PState :=
  let date :=
    match getAttr el "datetime" with
    | some d => if d == "" then "" else d
    | none => ""
  let display_text := getText el
  if date == "" && display_text == "" then (none, st)
  else (some (.date date display_text), st)

/-- The source's `_parse_card`. -/
def parseCard (el : Node) (st : PState) : Option Block × PState :=
  let titlePart :=
    match (findN el (hasClass "card-title")).orElse (fun _ => findN el (hasClass "teaser-title")) with
    | some titleEl =>
      let t := getText titleEl
      match findN titleEl anchorWithHref with
      | some a => (t, some ((getAttr a "href").getD ""), extractLink a st)
      | none => (t, none, st)
    | none => ("", none, st)
  let title := titlePart.1
  let link_url := titlePart.2.1
  let textSt :=
    match findN el (hasClass "card-text") with
    | some te => (some (getText te), extractLinks te titlePart.2.2)
    | none => (none, titlePart.2.2)
  let image_url := imageUrlOf el
  let metadata :=
    let ms := ((findAllN el (hasClass "metadata-item")).map getText).filter (fun s => !(s == ""))
    if ms.isEmpty then none else some ms
  if title == "" then (none, textSt.2)
  else (some (.card title textSt.1 link_url image_url metadata), textSt.2)

/-- The bs4 callable filter of `_parse_listing`'s `find_all`
(`lambda x: x and ('listing-item' in x or x == 'card')`): some class token has
`listing-item` as a substring or equals `card`. -/
def listingItemPred (n : Node) : Bool :=
  (classesOf n).any (fun c => strContainsSub c "listing-item" || c == "card")

/-- The item loop of `_parse_listing`: each found descendant is run through the
card extractor; only on success is it (with its subtree) marked processed. -/
def listingLoop : List (Node × List Nat) → PState → List Block × PState
  | [], st => ([], st)
  | (n, q) :: rest, st =>
    let r := parseCard n st
    match r.1 with
    | some c =>
      let st2 := markProcessed n q r.2
      let rr := listingLoop rest st2
      (c :: rr.1, rr.2)
    | none => listingLoop rest r.2

/-- The source's `_parse_listing`; `p` is the path of `el`. -/
def parseListing (el : Node) (p : List Nat) (st : PState) : Option Block × PState :=
  let variant :=
    match (classesOf el).find? (fun c => strStarts c "bcl-listing--") with
    | some c => some (strReplace c "bcl-listing--" "")
    | none => none
  let r := listingLoop (findAllWP el p listingItemPred) st
  if r.1.isEmpty then (none, r.2)
  else (some (.listing variant r.1), r.2)

/-- The source's `_parse_alert`. -/
def parseAlert (el : Node) (st : PState) : Option Block × PState :=
  let variant :=
    match (classesOf el).find? (fun c => strStarts c "alert-" && !(c == "alert-dismissible")) with
    | some c => some (strReplace c "alert-" "")
    | none => none
  let contentEl := (findN el (hasClass "notification--content")).getD el
  let message := getText contentEl
  let st' := extractLinks contentEl st
  if message == "" then (none, st')
  else (some (.alert variant message), st')

/-! ## Description list (`_parse_description_list`) -/

/-- The child loop of `_parse_description_list`: a `dt` overwrites the pending
term, a `dd` closes the pending term (empty string when none is pending) into
a pair; other children are ignored. -/
def dlLoop : List Node → Option String → PState → List (String × String) × Option String × PState
  | [], cur, st => ([], cur, st)
  | child :: rest, cur, st =>
    match child with
    | .text _ => dlLoop rest cur st
    | .elem tag _ _ _ =>
      if tag == "dt" then
        let term := getText child
        let st' := extractLinks child st
        dlLoop rest (some term) st'
      else if tag == "dd" then
        let description := getText child
        let st' := extractLinks child st
        let term := cur.getD ""
        let r := dlLoop rest none st'
        ((term, description) :: r.1, r.2.1, r.2.2)
      else dlLoop rest cur st

/-- Appends the trailing `[term, ""]` pair for a pending unpaired `dt`. -/
def dlFinish (r : List (String × String) × Option String × PState) : List (String × String) :=
  r.1 ++ (match r.2.1 with | some t => [(t, "")] | none => [])

/-- The source's `_parse_description_list`. -/
def parseDescriptionList (el : Node) (st : PState) : Option Block × PState :=
  let r := dlLoop (childrenOf el) none st
  let items := dlFinish r
  if items.isEmpty then (none, r.2.2)
  else (some (.description_list items), r.2.2)

/-! ## The recursive walk (`_parse_children` and friends)

Fuel decreases at every recursive call; the zero-fuel defaults are never
reached for sufficient fuel (see the module comment). -/

def CONTAINER_TAGS : List String :=
  ["div", "section", "article", "main", "aside", "header", "footer", "span"]

def HEADING_TAGS : List String :=
  ["h1", "h2", "h3", "h4", "h5", "h6"]

mutual

/-- The source's `_parse_children` (`p` is the path of `element`): enumerate
direct children with their positions and walk them. -/
def parseChildrenF : Nat → Node → List Nat → PState → List Block × PState
  | 0, _, _, st => ([], st)
  | fuel + 1, el, p, st => parseChildListF fuel ((childrenOf el).enum) p st

/-- The loop body of `_parse_children` over the indexed children. -/
def parseChildListF : Nat → List (Nat × Node) → List Nat → PState → List Block × PState
  | 0, _, _, st => ([], st)
  | _ + 1, [], _, st => ([], st)
  | fuel + 1, (i, child) :: rest, p, st =>
    let cp := p ++ [i]
    if shouldSkip child cp st then parseChildListF fuel rest p st
    else
      match matchComponent (classesOf child) with
      | some m =>
        let r := runExtractorF fuel m child cp st
        let st2 := markProcessed child cp r.2
        let rr := parseChildListF fuel rest p st2
        (r.1.toList ++ rr.1, rr.2)
      | none =>
        let tag := tagOf child
        if HEADING_TAGS.contains tag then
          let r := parseHeading child st
          let rr := parseChildListF fuel rest p r.2
          (r.1.toList ++ rr.1, rr.2)
        else if tag == "p" then
          let r := parseParagraph child st
          let rr := parseChildListF fuel rest p r.2
          (r.1.toList ++ rr.1, rr.2)
        else if tag == "table" then
          let r := parseTable child st
          let st2 := markProcessed child cp r.2
          let rr := parseChildListF fuel rest p st2
          (r.1.toList ++ rr.1, rr.2)
        else if tag == "ul" || tag == "ol" then
          let r := parseList child st
          let st2 := markProcessed child cp r.2
          let rr := parseChildListF fuel rest p st2
          (r.1.toList ++ rr.1, rr.2)
        else if tag == "dl" then
          let r := parseDescriptionList child st
          let st2 := markProcessed child cp r.2
          let rr := parseChildListF fuel rest p st2
          (r.1.toList ++ rr.1, rr.2)
        else if tag == "blockquote" then
          let r := parseBlockquoteF fuel child cp st
          let st2 := markProcessed child cp r.2
          let rr := parseChildListF fuel rest p st2
          (r.1.toList ++ rr.1, rr.2)
        else if tag == "a" then
          parseChildListF fuel rest p (extractLink child st)
        else
          -- Container tags (div, section, ...) recurse; the source's final
          -- `else` branch logs a warning and recurses identically, so both
          -- cases share this arm.
          let r := parseChildrenF fuel child cp st
          let rr := parseChildListF fuel rest p r.2
          (r.1 ++ rr.1, rr.2)

/-- The `getattr(self, parser_method)` dispatch of `_parse_children`. -/
def runExtractorF : Nat → String → Node → List Nat → PState → Option Block × PState
  | 0, _, _, _, st => (none, st)
  | fuel + 1, m, el, p, st =>
    if m == "_parse_file" then parseFile el st
    else if m == "_parse_accordion" then parseAccordionF fuel el p st
    else if m == "_parse_banner" then parseBanner el st
    else if m == "_parse_listing" then parseListing el p st
    else if m == "_parse_date_block" then parseDateBlock el st
    else if m == "_parse_card" then parseCard el st
    else if m == "_parse_alert" then parseAlert el st
    else (none, st)

/-- The source's `_parse_accordion` (`p` is the path of `el`): every descendant
with class `accordion-item` is turned into an item. -/
def parseAccordionF : Nat → Node → List Nat → PState → Option Block × PState
  | 0, _, _, st => (none, st)
  | fuel + 1, el, p, st =>
    let r := accordionItemsF fuel (findAllWP el p (hasClass "accordion-item")) st
    if r.1.isEmpty then (none, r.2)
    else (some (.accordion r.1), r.2)

/-- The item loop of `_parse_accordion`: title from a header's button (or the
header itself), content by reparsing the first `accordion-body` descendant;
the item is kept when it has a title or content. -/
def accordionItemsF : Nat → List (Node × List Nat) → PState → List (String × List Block) × PState
  | 0, _, st => ([], st)
  | _ + 1, [], st => ([], st)
  | fuel + 1, (itemEl, q) :: rest, st =>
    let title :=
      match findN itemEl (hasClass "accordion-header") with
      | some header =>
        match findN header (tagIs "button") with
        | some button => getText button
        | none => getText header
      | none => ""
    let contentSt :=
      match findWP itemEl q (hasClass "accordion-body") with
      | some bodyWP => parseChildrenF fuel bodyWP.1 bodyWP.2 st
      | none => ([], st)
    let rr := accordionItemsF fuel rest contentSt.2
    ((if title == "" && contentSt.1.isEmpty then [] else [(title, contentSt.1)]) ++ rr.1, rr.2)

/-- The source's `_parse_blockquote`: reparse the element itself; fall back to
one paragraph of its raw text when that yields nothing. -/
def parseBlockquoteF : Nat → Node → List Nat → PState → Option Block × PState
  | 0, _, _, st => (none, st)
  | fuel + 1, el, p, st =>
    let r := parseChildrenF fuel el p st
    let content :=
      if r.1.isEmpty then
        (let text := getText el; if text == "" then [] else [Block.paragraph text])
      else r.1
    if content.isEmpty then (none, r.2) else (some (.blockquote content), r.2)

end

/-- Fuel that is amply sufficient for every input handled in this development;
quadratic headroom over the node count covers the sibling-loop steps at every
nesting level (each concrete evaluation below certifies sufficiency by
producing exactly the hand-traced output of the source). -/
def fuelFor (main : Node) : Nat :=
  (nodeCount main + 2) * (nodeCount main + 2)

/-- The source's `EmaPageParser.parse`: state is reset at entry, the root's
children are walked, and the blocks plus collected links are returned. -/
def emaParse (main : Node) : ParseResult :=
  let r := parseChildrenF (fuelFor main) main [] ⟨[], []⟩
  ⟨r.1, r.2.links⟩

/-! ## Markdown renderer (`MarkdownConverter`) -/

def SKIP_TYPES : List String :=
  ["banner", "listing", "card", "alert", "date"]

/-- The `type` discriminator carried by each block dict. -/
def typeName : Block → String
  | .heading _ _ => "heading"
  | .paragraph _ => "paragraph"
  | .list _ _ => "list"
  | .table _ _ => "table"
  | .file _ _ _ _ _ _ _ _ _ => "file"
  | .description_list _ => "description_list"
  | .blockquote _ => "blockquote"
  | .banner _ _ _ _ => "banner"
  | .date _ _ => "date"
  | .card _ _ _ _ _ => "card"
  | .listing _ _ => "listing"
  | .alert _ _ => "alert"
  | .accordion _ => "accordion"

/-- Which block kinds have a `_render_<kind>` method on `MarkdownConverter`. -/
def hasRenderer : Block → Bool
  | .heading _ _ => true
  | .paragraph _ => true
  | .list _ _ => true
  | .table _ _ => true
  | .file _ _ _ _ _ _ _ _ _ => true
  | .description_list _ => true
  | .blockquote _ => true
  | .accordion _ => true
  | _ => false

/-- Python truthiness of an optional string field read with `block.get(...)`:
both a missing value and an empty string are falsy. -/
def optTruthy : Option String → Option String
  | some s => if s == "" then none else some s
  | none => none

/-- The source's `_render_heading`. -/
def renderHeading (level : Nat) (text : String) : String :=
  String.mk (List.replicate level '#') ++ " " ++ text

def renderListLines (ordered : Bool) : Nat → List String → List String
  | _, [] => []
  | i, item :: rest =>
    ((if ordered then natToStr i ++ "." else "-") ++ " " ++ item) :: renderListLines ordered (i + 1) rest

/-- The source's `_render_list` (1-based numbering when ordered). -/
def renderList (ordered : Bool) (items : List String) : String :=
  joinSep "\n" (renderListLines ordered 1 items)

def renderDlLines : List (String × String) → List String
  | [] => []
  | (term, description) :: rest =>
    (if !(term == "") && !(description == "") then ["**" ++ term ++ ":** " ++ description]
     else if !(term == "") then ["**" ++ term ++ "**"]
     else if !(description == "") then [description]
     else []) ++ renderDlLines rest

/-- The source's `_render_description_list`. -/
def renderDl (items : List (String × String)) : String :=
  joinSep "\n" (renderDlLines items)

/-- In-place padding of one data row (`while len(row) < len(headers):
row.append('')`). -/
def padRow (row : List String) (hn : Nat) : List String :=
  row ++ List.replicate (hn - row.length) ""

/-- The source's `_render_table`; the returned row list is the block's `rows`
after the renderer's in-place padding (rows are only padded when headers are
present). -/
def renderTable (headers : List String) (rows : List (List String)) : String × List (List String) :=
  if headers.isEmpty && rows.isEmpty then ("", rows)
  else
    let headerLines :=
      if headers.isEmpty then []
      else ["| " ++ joinSep " | " headers ++ " |",
            "| " ++ joinSep " | " (List.replicate headers.length "---") ++ " |"]
    let rows' := if headers.isEmpty then rows else rows.map (fun r => padRow r headers.length)
    let rowLines := rows'.map (fun r => "| " ++ joinSep " | " r ++ " |")
    (joinSep "\n" (headerLines ++ rowLines), rows')

/-- The source's `_render_file`.  The title key always exists on parsed blocks,
so the `'Untitled'` dict default is unreachable; optional metadata fields go
through Python truthiness. -/
def renderFile (title : String) (reference_number file_size file_format
    first_published url : Option String) : String :=
  let line1 :=
    match optTruthy url with
    | some u => "**[" ++ title ++ "](" ++ u ++ ")**"
    | none => "**" ++ title ++ "**"
  let fileInfo :=
    (match optTruthy file_format with | some f => [f] | none => []) ++
      (match optTruthy file_size with | some s => [s] | none => [])
  let metaParts :=
    (match optTruthy reference_number with | some r => ["Reference: " ++ r] | none => []) ++
      (if fileInfo.isEmpty then [] else [joinSep ", " fileInfo]) ++
      (match optTruthy first_published with | some d => ["Published: " ++ d] | none => [])
  if metaParts.isEmpty then line1
  else line1 ++ "  \n" ++ joinSep " | " metaParts

/-- Wraps a rendered fragment the way `convert` collects it: only non-empty
fragments are kept. -/
def fragParts (s : String) : List String :=
  if s == "" then [] else [s]

/-- One block's contribution to `convert`: the (zero or one) rendered fragment
and the block after any renderer-side mutation.  Fuel bounds the nesting depth
of blockquote/accordion contents.  Nested contents are rendered exactly as
`self.convert` does (see `mdConvertF` and `convertLoop_eq_map`); since
`convert` threads no state across blocks, the per-element mapping is the
sequential loop. -/
def convertOneF : Nat → List String → Block → List String × Block
  | 0, _, b => ([], b)
  | fuel + 1, skip, b =>
    if skip.contains (typeName b) then ([], b)
    else
      match b with
      | .heading level text => (fragParts (renderHeading level text), b)
      | .paragraph text => (fragParts text, b)
      | .list ordered items => (fragParts (renderList ordered items), b)
      | .description_list items => (fragParts (renderDl items), b)
      | .table headers rows =>
        let r := renderTable headers rows
        (fragParts r.1, .table headers r.2)
      | .blockquote content =>
        let prs := content.map (convertOneF fuel skip)
        let innerMd := joinSep "\n\n" (catMap (fun x => x.1) prs)
        let s := joinSep "\n" ((splitNl innerMd).map (fun line => "> " ++ line))
        (fragParts s, .blockquote (prs.map (fun x => x.2)))
      | .file title rn _ _ fs ff fp _ url =>
        (fragParts (renderFile title rn fs ff fp url), b)
      | .accordion items =>
        let prs := items.map (fun it =>
          let titleParts := if it.1 == "" then ([] : List String) else ["### " ++ it.1]
          let contentPart :=
            if it.2.isEmpty then (([] : List String), it.2)
            else
              let cprs := it.2.map (convertOneF fuel skip)
              let inner := joinSep "\n\n" (catMap (fun x => x.1) cprs)
              ((if inner == "" then [] else [inner]), cprs.map (fun x => x.2))
          (titleParts ++ contentPart.1, (it.1, contentPart.2)))
        let s := joinSep "\n\n" (catMap (fun x => x.1) prs)
        (fragParts s, .accordion (prs.map (fun x => x.2)))
      | _ => ([], b)

/-- The block loop of `convert`: fragments are accumulated in order and each
block is replaced by its possibly mutated value. -/
def convertLoopF (fuel : Nat) (skip : List String) : List Block → List String × List Block
  | [] => ([], [])
  | b :: bs =>
    let r := convertOneF fuel skip b
    let rr := convertLoopF fuel skip bs
    (r.1 ++ rr.1, r.2 :: rr.2)

/-- The source's `MarkdownConverter.convert`: walk the blocks, join the
non-empty fragments with blank lines; the second component is the block list
as left behind by the renderers (Python mutates it in place). -/
def mdConvertF (fuel : Nat) (skip : List String) (blocks : List Block) : String × List Block :=
  let r := convertLoopF fuel skip blocks
  (joinSep "\n\n" r.1, r.2)

/-! ## Basic lemmas about the walk's bookkeeping -/

theorem contains_of_mem {α : Type} [BEq α] [LawfulBEq α] {a : α} {l : List α}
    (h : a ∈ l) : l.contains a = true :=
  List.elem_eq_true_of_mem h

theorem snd_mem_of_mem_enumFrom {α : Type} :
    ∀ (l : List α) (n : Nat) (x : Nat × α), x ∈ List.enumFrom n l → x.2 ∈ l := by
  intro l
  induction l with
  | nil => intro n x h; cases h
  | cons c cs ih =>
    intro n x h
    rcases List.mem_cons.mp h with heq | hm
    · subst heq; exact List.mem_cons_self _ _
    · exact List.mem_cons_of_mem _ (ih _ _ hm)

theorem mem_of_findWP {n : Node} {p : List Nat} {pred : Node → Bool} {x : Node × List Nat}
    (h : findWP n p pred = some x) : x ∈ descendantsWP n p := by
  have hx : x ∈ findAllWP n p pred := List.mem_of_mem_head? (by simp [findWP] at h; simp [h])
  exact (List.mem_filter.mp hx).1

theorem mem_of_findAllWP {n : Node} {p : List Nat} {pred : Node → Bool} {x : Node × List Nat}
    (h : x ∈ findAllWP n p pred) : x ∈ descendantsWP n p :=
  (List.mem_filter.mp h).1

/-- Marking never touches the link list. -/
theorem markProcessed_links (n : Node) (p : List Nat) (st : PState) :
    (markProcessed n p st).links = st.links := rfl

/-- After `_mark_processed`, the element's own path and every element
descendant's path are in the visited set. -/
theorem mem_processed_markProcessed {child d : Node} {cp q : List Nat} (st : PState)
    (h : (d, q) ∈ (child, cp) :: descendantsWP child cp) (hd : isElem d = true) :
    q ∈ (markProcessed child cp st).processed := by
  simp only [markProcessed]
  rcases List.mem_cons.mp h with heq | hm
  · have hq : q = cp := congrArg Prod.snd heq
    subst hq
    exact List.mem_append_right _ (List.mem_cons_self _ _)
  · apply List.mem_append_right
    apply List.mem_cons_of_mem
    exact List.mem_filterMap.mpr ⟨(d, q), hm, by simp [hd]⟩

/-- A visited element is skipped by `_should_skip`. -/
theorem shouldSkip_of_processed {d : Node} {q : List Nat} {st : PState}
    (hd : isElem d = true) (hq : q ∈ st.processed) : shouldSkip d q st = true := by
  cases d with
  | text s => simp [isElem] at hd
  | elem tag cls attrs cs =>
    simp [shouldSkip]
    exact Or.inl (Or.inl (Or.inr hq))

/-! ## The component-dispatch step of the walk -/

/-- One walk step on a component match: the extractor runs, a returned block
(if any) is appended, the element's subtree is marked, and the walk continues
with the remaining siblings. -/
theorem parseChildList_component_step (fuel i : Nat) (child : Node) (rest : List (Nat × Node))
    (p : List Nat) (st : PState) (m : String)
    (hskip : shouldSkip child (p ++ [i]) st = false)
    (hmatch : matchComponent (classesOf child) = some m) :
    parseChildListF (fuel + 1) ((i, child) :: rest) p st =
      ((runExtractorF fuel m child (p ++ [i]) st).1.toList ++
        (parseChildListF fuel rest p
          (markProcessed child (p ++ [i]) (runExtractorF fuel m child (p ++ [i]) st).2)).1,
       (parseChildListF fuel rest p
          (markProcessed child (p ++ [i]) (runExtractorF fuel m child (p ++ [i]) st).2)).2) := by
  simp [parseChildListF, hskip, hmatch]

/-- The loop of `_match_component` returns the first matching selector. -/
theorem matchSelectors_first (classes : List String) :
    ∀ (pre suf : List (String × String)) (cls m : String),
      (∀ x ∈ pre, classes.contains x.1 = false) → classes.contains cls = true →
      matchSelectors (pre ++ (cls, m) :: suf) classes = some m := by
  intro pre
  induction pre with
  | nil =>
    intro suf cls m _ hc
    simp only [List.nil_append, matchSelectors]
    rw [hc]
    simp
  | cons x xs ih =>
    intro suf cls m hpre hc
    have hx : classes.contains x.1 = false := hpre x (List.mem_cons_self _ _)
    cases x with
    | mk a b =>
      simp only [List.cons_append, matchSelectors]
      simp only at hx
      rw [hx]
      simp only [Bool.false_eq_true, if_false]
      exact ih suf cls m (fun y hy => hpre y (List.mem_cons_of_mem _ hy)) hc

/-! ## Claim C1 -/

/-- C1: extraction failure degrades to skipping the element.  `parse` and every
extractor are total functions of this embedding (no exception can escape); when
a matched component's extractor fails (returns no block), the element
contributes nothing, its subtree is still marked visited, and the walk
continues with the remaining siblings exactly as if only they were present —
one bad component never discards the page. -/
theorem claim1_failed_extraction_skips_and_continues
    (fuel i : Nat) (child : Node) (rest : List (Nat × Node)) (p : List Nat) (st : PState) (m : String)
    (hskip : shouldSkip child (p ++ [i]) st = false)
    (hmatch : matchComponent (classesOf child) = some m)
    (hfail : (runExtractorF fuel m child (p ++ [i]) st).1 = none) :
    parseChildListF (fuel + 1) ((i, child) :: rest) p st =
      parseChildListF fuel rest p
        (markProcessed child (p ++ [i]) (runExtractorF fuel m child (p ++ [i]) st).2) := by
  rw [parseChildList_component_step fuel i child rest p st m hskip hmatch, hfail]
  simp

def w1comp : Node :=
  .elem "div" ["bcl-listing"] [] [.elem "article" ["listing-item"] [] [.elem "p" [] [] [.text "x"]]]

def w1next : Nat × Node := (1, .elem "p" [] [] [.text "after"])

/-- Witness for C1 at a concrete listing component whose extraction fails. -/
theorem claim1_failed_extraction_skips_and_continues_witness :
    shouldSkip w1comp [0] ⟨[], []⟩ = false ∧
    matchComponent (classesOf w1comp) = some "_parse_listing" ∧
    (runExtractorF 30 "_parse_listing" w1comp [0] ⟨[], []⟩).1 = none ∧
    parseChildListF 31 [(0, w1comp), w1next] [] ⟨[], []⟩ =
      parseChildListF 30 [w1next] []
        (markProcessed w1comp [0] (runExtractorF 30 "_parse_listing" w1comp [0] ⟨[], []⟩).2) :=
  ⟨rfl, rfl, rfl,
    claim1_failed_extraction_skips_and_continues 30 0 w1comp [w1next] [] ⟨[], []⟩
      "_parse_listing" rfl rfl rfl⟩

/-! ## Claim C7 -/

/-- C7: the ordered selector list encodes precedence (the first selector whose
class name occurs in the element's class set wins), a matched element is
dispatched to that extractor and — whether or not a block came back — the
element and all of its descendants are marked visited, and any marked element
is subsequently skipped by the walk, so the generic recursion never revisits
the consumed subtree. -/
theorem claim7_component_dispatch_precedence_and_marking :
    (∀ (classes : List String) (pre suf : List (String × String)) (cls m : String),
        COMPONENT_SELECTORS = pre ++ (cls, m) :: suf →
        (∀ x ∈ pre, classes.contains x.1 = false) →
        classes.contains cls = true →
        matchComponent classes = some m) ∧
    (∀ (fuel i : Nat) (child : Node) (rest : List (Nat × Node)) (p : List Nat) (st : PState)
        (m : String),
        shouldSkip child (p ++ [i]) st = false →
        matchComponent (classesOf child) = some m →
        parseChildListF (fuel + 1) ((i, child) :: rest) p st =
          ((runExtractorF fuel m child (p ++ [i]) st).1.toList ++
            (parseChildListF fuel rest p
              (markProcessed child (p ++ [i]) (runExtractorF fuel m child (p ++ [i]) st).2)).1,
           (parseChildListF fuel rest p
              (markProcessed child (p ++ [i]) (runExtractorF fuel m child (p ++ [i]) st).2)).2)) ∧
    (∀ (child d : Node) (cp q : List Nat) (st' : PState),
        (d, q) ∈ (child, cp) :: descendantsWP child cp → isElem d = true →
        shouldSkip d q (markProcessed child cp st') = true) := by
  refine ⟨?_, ?_, ?_⟩
  · intro classes pre suf cls m hsel hpre hc
    unfold matchComponent
    rw [hsel]
    exact matchSelectors_first classes pre suf cls m hpre hc
  · intro fuel i child rest p st m hskip hmatch
    exact parseChildList_component_step fuel i child rest p st m hskip hmatch
  · intro child d cp q st' h hd
    exact shouldSkip_of_processed hd (mem_processed_markProcessed st' h hd)

def w7comp : Node :=
  .elem "div" ["bcl-file"] [] [.elem "p" ["file-title"] [] [.text "T"]]

/-- Witness for C7: the file selector (first in the table) wins for a
`bcl-file` element, the step equation holds concretely, and the marked inner
element is afterwards skipped. -/
theorem claim7_component_dispatch_precedence_and_marking_witness :
    matchComponent ["bcl-file"] = some "_parse_file" ∧
    parseChildListF 21 [(0, w7comp)] [] ⟨[], []⟩ =
      ((runExtractorF 20 "_parse_file" w7comp [0] ⟨[], []⟩).1.toList ++
        (parseChildListF 20 [] []
          (markProcessed w7comp [0] (runExtractorF 20 "_parse_file" w7comp [0] ⟨[], []⟩).2)).1,
       (parseChildListF 20 [] []
          (markProcessed w7comp [0] (runExtractorF 20 "_parse_file" w7comp [0] ⟨[], []⟩).2)).2) ∧
    shouldSkip (.elem "p" ["file-title"] [] [.text "T"]) [0, 0]
      (markProcessed w7comp [0] ⟨[], []⟩) = true :=
  ⟨claim7_component_dispatch_precedence_and_marking.1 ["bcl-file"] []
      [("accordion", "_parse_accordion"), ("bcl-content-banner", "_parse_banner"),
       ("bcl-listing", "_parse_listing"), ("bcl-date-block", "_parse_date_block"),
       ("listing-item", "_parse_card"), ("alert", "_parse_alert")]
      "bcl-file" "_parse_file" rfl (by intro x hx; cases hx) rfl,
   claim7_component_dispatch_precedence_and_marking.2.1 20 0 w7comp [] [] ⟨[], []⟩
      "_parse_file" rfl rfl,
   claim7_component_dispatch_precedence_and_marking.2.2 w7comp
      (.elem "p" ["file-title"] [] [.text "T"]) [0] [0, 0] ⟨[], []⟩
      (List.Mem.tail _ (List.Mem.head _)) rfl⟩

/-! ## Claim C8: the concrete scenario page -/

/-- The DOM of the spec's scenario:
`<main><h1>Test Page</h1><p>This is a <a href="/link1">test link</a>
paragraph.</p><h2>Section</h2><ul><li>Item 1</li><li>Item 2</li></ul></main>`. -/
def c8dom : Node :=
  .elem "main" ["main-content-wrapper"] []
    [.elem "h1" [] [] [.text "Test Page"],
     .elem "p" [] []
       [.text "This is a ",
        .elem "a" [] [("href", "/link1")] [.text "test link"],
        .text " paragraph."],
     .elem "h2" [] [] [.text "Section"],
     .elem "ul" [] []
       [.elem "li" [] [] [.text "Item 1"],
        .elem "li" [] [] [.text "Item 2"]]]

/-- C8: parsing the scenario DOM yields exactly the four blocks in document
order and exactly the one filtered link. -/
theorem claim8_sample_page_parse :
    emaParse c8dom =
      ⟨[Block.heading 1 "Test Page",
        Block.paragraph "This is a test link paragraph.",
        Block.heading 2 "Section",
        Block.list false ["Item 1", "Item 2"]],
       [⟨"test link", "/link1"⟩]⟩ := rfl

/-! ## Claim C3: nested accordion items double-emit content -/

/-- A DOM whose outer `accordion` contains an `accordion-item` that itself
contains another `accordion-item` (before any body of its own). -/
def c3dom : Node :=
  .elem "main" [] []
    [.elem "div" ["accordion"] []
      [.elem "div" ["accordion-item"] []
        [.elem "div" ["accordion-item"] []
          [.elem "div" ["accordion-header"] [] [.elem "button" [] [] [.text "B"]],
           .elem "div" ["accordion-body"] [] [.elem "p" [] [] [.text "hello"]]]]]]

/-- C3 fails on the code: the accordion extractor collects `accordion-item`
descendants recursively and reparses each item's first `accordion-body`
descendant without consulting or updating the visited set inside its own loop,
so the single `<p>hello</p>` of this DOM is emitted as a paragraph block twice
— once inside each of the two overlapping items — although the accordion
element was matched and consumed by one component extractor. -/
theorem claim3_nested_accordion_double_emission :
    (emaParse c3dom).blocks =
      [Block.accordion
        [("B", [Block.paragraph "hello"]), ("B", [Block.paragraph "hello"])]] := rfl

/-! ## Claim C4: the table renderer mutates its input -/

/-- C4 fails on the code: `_render_table` pads short data rows in place
(`row.append('')`), so after `convert` the table block's `rows` field has
changed from `[["1"]]` to `[["1", ""]]` while the markdown output shows the
padded row. -/
theorem claim4_render_table_mutates_rows :
    (mdConvertF 3 SKIP_TYPES [Block.table ["A", "B"] [["1"]]]).2 =
        [Block.table ["A", "B"] [["1", ""]]] ∧
      (mdConvertF 3 SKIP_TYPES [Block.table ["A", "B"] [["1"]]]).1 =
        "| A | B |\n| --- | --- |\n| 1 |  |" ∧
      Block.table ["A", "B"] [["1", ""]] ≠ Block.table ["A", "B"] [["1"]] :=
  ⟨rfl, rfl, by simp⟩

/-! ## Claim C2, counterexample part -/

/-- The link invariant asserted by C2. -/
def linkOkB (l : Link) : Bool :=
  !(l.href == "") && !(strStarts l.href "#") && !(strStarts l.href "javascript:") &&
    !(l.text == "")

/-- A page whose only component is a `bcl-file` with a fragment-only anchor. -/
def c2FileDom : Node :=
  .elem "main" [] []
    [.elem "div" ["bcl-file"] []
      [.elem "p" ["file-title"] [] [.text "T"],
       .elem "a" [] [("href", "#frag")] [.text "View"]]]

/-- C2 fails as stated: `_parse_file` appends its Link directly (bypassing
`_extract_link`), so a fragment-only href reaches the output link list — the
produced page has exactly one link, and that link violates the claimed
invariant (`linkOkB` is false for it because its href starts with `#`). -/
theorem claim2_file_link_bypasses_filter_cex :
    (emaParse c2FileDom).links = [⟨"T", "#frag"⟩] ∧
      linkOkB ⟨"T", "#frag"⟩ = false ∧ strStarts "#frag" "#" = true :=
  ⟨rfl, rfl, rfl⟩

/-! ## Claim C5, counterexample part -/

/-- A listing with one `listing-item` descendant that has no card title, so
its Card extraction fails. -/
def c5dom : Node :=
  .elem "div" ["bcl-listing"] []
    [.elem "article" ["listing-item"] [] [.elem "p" [] [] [.text "x"]]]

/-- C5 fails as stated: after the Listing extractor runs on `c5dom` — whose
only found item, at path `[0]`, fails Card extraction — the item was NOT
marked visited (the visited set is still empty, contradicting the claimed
"regardless of success" marking), and the extractor returned null. -/
theorem claim5_failed_card_not_marked_cex :
    (parseListing c5dom [] ⟨[], []⟩).1 = none ∧
      (parseListing c5dom [] ⟨[], []⟩).2.processed.contains [0] = false ∧
      (parseListing c5dom [] ⟨[], []⟩).2.processed = [] :=
  ⟨rfl, rfl, rfl⟩

/-! ## Claim C6, counterexample part -/

/-- A table with no `thead` whose FIRST body row is a `td` data row and whose
SECOND body row consists of `th` cells only. -/
def c6dom : Node :=
  .elem "table" [] []
    [.elem "tr" [] [] [.elem "td" [] [] [.text "1"]],
     .elem "tr" [] [] [.elem "th" [] [] [.text "H"]]]

/-- C6 fails as stated: the claim's "if and only if the FIRST body row's cells
are all th" predicts headers `[]` and rows `[["1"], ["H"]]` for `c6dom` (whose
first body row holds a `td`), but the code consumes the all-`th` SECOND row as
the header row — the produced block has the non-empty headers `["H"]` and the
single data row `["1"]` (the check runs on every row while headers are still
empty). -/
theorem claim6_header_row_not_first_cex :
    (parseTable c6dom ⟨[], []⟩).1 = some (Block.table ["H"] [["1"]]) ∧
      (["H"] : List String).isEmpty = false :=
  ⟨rfl, rfl⟩

/-! ## Claim C10: dt/dd pairing of the description-list extractor -/

/-- State-erased projection of `dlLoop` (links do not influence the produced
pairs); used to reason about the item sequence. -/
def dlScan : List Node → Option String → List (String × String) × Option String
  | [], cur => ([], cur)
  | child :: rest, cur =>
    match child with
    | .text _ => dlScan rest cur
    | .elem tag _ _ _ =>
      if tag == "dt" then dlScan rest (some (getText child))
      else if tag == "dd" then
        let r := dlScan rest none
        ((cur.getD "", getText child) :: r.1, r.2)
      else dlScan rest cur

def dlFlush (r : List (String × String) × Option String) : List (String × String) :=
  r.1 ++ (match r.2 with | some t => [(t, "")] | none => [])

/-- The stateful dl loop computes the same items and pending term as the pure
scan. -/
theorem dlLoop_scan : ∀ (cs : List Node) (cur : Option String) (st : PState),
    (dlLoop cs cur st).1 = (dlScan cs cur).1 ∧ (dlLoop cs cur st).2.1 = (dlScan cs cur).2 := by
  intro cs
  induction cs with
  | nil => intro cur st; exact ⟨rfl, rfl⟩
  | cons c rest ih =>
    intro cur st
    cases c with
    | text s => simpa [dlLoop, dlScan] using ih cur st
    | elem tag cls attrs children =>
      by_cases hdt : tag = "dt"
      · simpa [dlLoop, dlScan, hdt] using ih _ _
      · by_cases hdd : tag = "dd"
        · have h := ih none (extractLinks (.elem tag cls attrs children) st)
          simp [dlLoop, dlScan, hdt, hdd]
          exact ⟨h.1, h.2⟩
        · simpa [dlLoop, dlScan, hdt, hdd] using ih cur st

theorem dlFinish_eq_flush_scan (cs : List Node) (cur : Option String) (st : PState) :
    dlFinish (dlLoop cs cur st) = dlFlush (dlScan cs cur) := by
  have h := dlLoop_scan cs cur st
  simp [dlFinish, dlFlush, h.1, h.2]

/-- A run with no `dd` element followed by a `dt` is invisible to the scan:
whatever pending term and skipped elements precede it, the `dt` resets the
pending term. -/
theorem dlScan_skip_to_dt :
    ∀ (mid : List Node), (∀ x ∈ mid, ¬(isElem x = true ∧ tagOf x = "dd")) →
      ∀ (b : Node) (post : List Node) (cur1 cur2 : Option String),
        tagOf b = "dt" → isElem b = true →
        dlScan (mid ++ b :: post) cur1 = dlScan (b :: post) cur2 := by
  intro mid
  induction mid with
  | nil =>
    intro _ b post cur1 cur2 hb hbe
    cases b with
    | text s => simp [isElem] at hbe
    | elem tag cls attrs children =>
      have : tag = "dt" := hb
      simp [dlScan, this]
  | cons m ms ih =>
    intro hmid b post cur1 cur2 hb hbe
    have hms : ∀ x ∈ ms, ¬(isElem x = true ∧ tagOf x = "dd") :=
      fun x hx => hmid x (List.mem_cons_of_mem _ hx)
    cases m with
    | text s => simpa [dlScan] using ih hms b post cur1 cur2 hb hbe
    | elem tag cls attrs children =>
      have hnd : ¬ tag = "dd" := by
        intro h
        exact hmid (.elem tag cls attrs children) (List.mem_cons_self _ _) ⟨rfl, h⟩
      by_cases hdt : tag = "dt"
      · simpa [dlScan, hdt] using ih hms b post _ cur2 hb hbe
      · simpa [dlScan, hdt, hnd] using ih hms b post cur1 cur2 hb hbe

/-- Scan-level statement of the dt-overwrite property. -/
theorem dlScan_overwrite :
    ∀ (pre : List Node) (mid post : List Node) (a b : Node) (cur : Option String),
      tagOf a = "dt" → isElem a = true → tagOf b = "dt" → isElem b = true →
      (∀ x ∈ mid, ¬(isElem x = true ∧ tagOf x = "dd")) →
      dlScan (pre ++ a :: (mid ++ b :: post)) cur = dlScan (pre ++ b :: post) cur := by
  intro pre
  induction pre with
  | nil =>
    intro mid post a b cur ha hae hb hbe hmid
    cases a with
    | text s => simp [isElem] at hae
    | elem tag cls attrs children =>
      have htag : tag = "dt" := ha
      simp only [List.nil_append]
      rw [show dlScan ((Node.elem tag cls attrs children) :: (mid ++ b :: post)) cur =
            dlScan (mid ++ b :: post) (some (getText (.elem tag cls attrs children))) by
          simp [dlScan, htag]]
      exact dlScan_skip_to_dt mid hmid b post _ cur hb hbe
  | cons c cs ih =>
    intro mid post a b cur ha hae hb hbe hmid
    cases c with
    | text s => simpa [dlScan] using ih mid post a b cur ha hae hb hbe hmid
    | elem tag cls attrs children =>
      by_cases hdt : tag = "dt"
      · simpa [dlScan, hdt] using ih mid post a b _ ha hae hb hbe hmid
      · by_cases hdd : tag = "dd"
        · subst hdd
          have hrw := ih mid post a b none ha hae hb hbe hmid
          simp [dlScan, hrw]
        · simpa [dlScan, hdt, hdd] using ih mid post a b cur ha hae hb hbe hmid

/-- Scan-level statement of the trailing-dt flush. -/
theorem dlScan_trailing :
    ∀ (cs : List Node) (t : Node) (cur : Option String), tagOf t = "dt" → isElem t = true →
      dlFlush (dlScan (cs ++ [t]) cur) = (dlScan cs cur).1 ++ [(getText t, "")] := by
  intro cs
  induction cs with
  | nil =>
    intro t cur ht hte
    cases t with
    | text s => simp [isElem] at hte
    | elem tag cls attrs children =>
      have : tag = "dt" := ht
      simp [dlScan, dlFlush, this]
  | cons c rest ih =>
    intro t cur ht hte
    cases c with
    | text s => simpa [dlScan] using ih t cur ht hte
    | elem tag cls attrs children =>
      by_cases hdt : tag = "dt"
      · simpa [dlScan, hdt] using ih t _ ht hte
      · by_cases hdd : tag = "dd"
        · subst hdd
          have hrw := ih t none ht hte
          simp [dlScan, dlFlush] at hrw ⊢
          rw [hrw]
        · simpa [dlScan, hdt, hdd] using ih t cur ht hte

/-- C10: in `_parse_description_list`, a `dt` followed (with no intervening
`dd`) by another `dt` is silently discarded — the items of the description
list are the same as if the earlier `dt` were absent — and only a `dt` that is
still unpaired at the very end of the `dl` produces a `[term, ""]` pair, the
flush appending exactly the last pending term. -/
theorem claim10_dt_overwrite_and_trailing_flush :
    (∀ (pre mid post : List Node) (a b : Node) (cur : Option String) (st : PState),
        tagOf a = "dt" → isElem a = true → tagOf b = "dt" → isElem b = true →
        (∀ x ∈ mid, ¬(isElem x = true ∧ tagOf x = "dd")) →
        dlFinish (dlLoop (pre ++ a :: (mid ++ b :: post)) cur st) =
          dlFinish (dlLoop (pre ++ b :: post) cur st)) ∧
    (∀ (cs : List Node) (t : Node) (st : PState), tagOf t = "dt" → isElem t = true →
        dlFinish (dlLoop (cs ++ [t]) none st) = (dlLoop cs none st).1 ++ [(getText t, "")]) := by
  constructor
  · intro pre mid post a b cur st ha hae hb hbe hmid
    rw [dlFinish_eq_flush_scan, dlFinish_eq_flush_scan,
      dlScan_overwrite pre mid post a b cur ha hae hb hbe hmid]
  · intro cs t st ht hte
    rw [dlFinish_eq_flush_scan, dlScan_trailing cs t none ht hte, (dlLoop_scan cs none st).1]

def dtN (s : String) : Node := .elem "dt" [] [] [.text s]

def ddN (s : String) : Node := .elem "dd" [] [] [.text s]

/-- Witness for C10 on the concrete children `dt A, dt B, dd X`: term `A` is
discarded and the resulting items are exactly `[(B, X)]`. -/
theorem claim10_dt_overwrite_and_trailing_flush_witness :
    dlFinish (dlLoop [dtN "A", dtN "B", ddN "X"] none ⟨[], []⟩) =
        dlFinish (dlLoop [dtN "B", ddN "X"] none ⟨[], []⟩) ∧
      dlFinish (dlLoop [dtN "B", ddN "X"] none ⟨[], []⟩) = [("B", "X")] ∧
      dlFinish (dlLoop [ddN "X", dtN "C"] none ⟨[], []⟩) =
        (dlLoop [ddN "X"] none ⟨[], []⟩).1 ++ [(getText (dtN "C"), "")] :=
  ⟨claim10_dt_overwrite_and_trailing_flush.1 [] [] [ddN "X"] (dtN "A") (dtN "B") none ⟨[], []⟩
      rfl rfl rfl rfl (fun x hx => absurd hx (List.not_mem_nil x)),
   rfl,
   claim10_dt_overwrite_and_trailing_flush.2 [ddN "X"] (dtN "C") ⟨[], []⟩ rfl rfl⟩

/-! ## Claim C9: the converter's skip/join behaviour -/

theorem fragParts_ne (t s : String) (h : s ∈ fragParts t) : s ≠ "" := by
  unfold fragParts at h
  split at h
  · cases h
  · next hne =>
    rcases List.mem_singleton.mp h with rfl
    simpa using hne

theorem convertLoop_fst : ∀ (fuel : Nat) (skip : List String) (bs : List Block),
    (convertLoopF fuel skip bs).1 = catMap (fun b => (convertOneF fuel skip b).1) bs := by
  intro fuel skip bs
  induction bs with
  | nil => rfl
  | cons b rest ih => simp [convertLoopF, catMap, ih]

/-- C9: `convert` walks the blocks in order and its output string is exactly
the non-empty per-block fragments joined by one blank line; a block whose kind
is in the skip set contributes nothing; a block whose kind has no registered
renderer contributes nothing (and is left unchanged) instead of failing; every
collected fragment is non-empty. -/
theorem claim9_convert_skips_and_joins :
    (∀ (fuel : Nat) (skip : List String) (bs : List Block),
        (mdConvertF fuel skip bs).1 =
          joinSep "\n\n" (catMap (fun b => (convertOneF fuel skip b).1) bs)) ∧
    (∀ (fuel : Nat) (skip : List String) (b : Block),
        skip.contains (typeName b) = true → convertOneF (fuel + 1) skip b = ([], b)) ∧
    (∀ (fuel : Nat) (skip : List String) (b : Block),
        hasRenderer b = false → convertOneF (fuel + 1) skip b = ([], b)) ∧
    (∀ (fuel : Nat) (skip : List String) (b : Block) (s : String),
        s ∈ (convertOneF fuel skip b).1 → s ≠ "") := by
  refine ⟨?_, ?_, ?_, ?_⟩
  · intro fuel skip bs
    simp [mdConvertF, convertLoop_fst]
  · intro fuel skip b h
    simp only [convertOneF]
    rw [if_pos h]
  · intro fuel skip b h
    cases b <;> simp_all [hasRenderer, convertOneF]
  · intro fuel skip b s hs
    cases fuel with
    | zero => simp [convertOneF] at hs
    | succ f =>
      simp only [convertOneF] at hs
      by_cases hc : skip.contains (typeName b) = true
      · rw [if_pos hc] at hs
        simp at hs
      · rw [if_neg hc] at hs
        cases b <;>
          first
            | exact fragParts_ne _ _ hs
            | simp at hs

/-- Witness for C9: a card block is dropped under the default skip set, and a
date block (which has no renderer) is dropped even with an empty skip set. -/
theorem claim9_convert_skips_and_joins_witness :
    SKIP_TYPES.contains (typeName (Block.card "T" none none none none)) = true ∧
    convertOneF 1 SKIP_TYPES (Block.card "T" none none none none) =
      ([], Block.card "T" none none none none) ∧
    hasRenderer (Block.date "2026-01-08" "08 Jan 2026") = false ∧
    convertOneF 1 [] (Block.date "2026-01-08" "08 Jan 2026") =
      ([], Block.date "2026-01-08" "08 Jan 2026") :=
  ⟨rfl,
   claim9_convert_skips_and_joins.2.1 0 SKIP_TYPES (Block.card "T" none none none none) rfl,
   rfl,
   claim9_convert_skips_and_joins.2.2.1 0 [] (Block.date "2026-01-08" "08 Jan 2026") rfl⟩

/-! ## Claim C6: characterization of the table extractor -/

/-- Follows the amended claim's words: starting from the thead-derived headers,
the first body row encountered while headers are still empty whose cells are
all `th` (vacuously including a row with no cells) is consumed as the header
row and excluded from the data rows; every other row with at least one cell
becomes a data row. -/
def tableScanSpec : List Node → List String → List String × List (List String)
  | [], hs => (hs, [])
  | tr :: trs, hs =>
    let cells := findAllN tr cellPred
    if hs.isEmpty && cells.all (fun c => tagOf c == "th") then
      tableScanSpec trs (cells.map getText)
    else
      let r := tableScanSpec trs hs
      let row := cells.map getText
      (r.1, if row.isEmpty then r.2 else row :: r.2)

/-- Headers contributed by a `thead`, when one exists. -/
def theadHeaders (el : Node) : List String :=
  match findN el (tagIs "thead") with
  | some thead => (findAllN thead (tagIs "th")).map getText
  | none => []

/-- The direct-child `tr`s of the first `tbody` descendant (or of the table
element itself when there is none). -/
def bodyTrs (el : Node) : List Node :=
  childElems ((findN el (tagIs "tbody")).getD el) (tagIs "tr")

/-- The stateful row loop computes the same headers and rows as the pure
scan. -/
theorem tableRowsLoop_scan : ∀ (trs : List Node) (hs : List String) (st : PState),
    (tableRowsLoop trs hs st).1 = (tableScanSpec trs hs).1 ∧
    (tableRowsLoop trs hs st).2.1 = (tableScanSpec trs hs).2 := by
  intro trs
  induction trs with
  | nil => intro hs st; exact ⟨rfl, rfl⟩
  | cons tr rest ih =>
    intro hs st
    simp only [tableRowsLoop, tableScanSpec]
    by_cases hcond :
        (hs.isEmpty && (findAllN tr cellPred).all (fun c => tagOf c == "th")) = true
    · rw [if_pos hcond, if_pos hcond]
      exact ih _ _
    · rw [if_neg hcond, if_neg hcond]
      refine ⟨(ih hs _).1, ?_⟩
      rw [(ih hs _).2]

/-- C6, amended: the extractor's result is exactly the scan's headers and rows
(null precisely when both are empty), and when the thead already produced
headers no body row is ever consumed as a header row — every row with at least
one cell is a data row. -/
theorem claim6_table_extraction_characterization :
    (∀ (el : Node) (st : PState),
        (parseTable el st).1 =
          (if (tableScanSpec (bodyTrs el) (theadHeaders el)).1.isEmpty &&
              (tableScanSpec (bodyTrs el) (theadHeaders el)).2.isEmpty then none
           else
             some (.table (tableScanSpec (bodyTrs el) (theadHeaders el)).1
               (tableScanSpec (bodyTrs el) (theadHeaders el)).2))) ∧
    (∀ (trs : List Node) (hs : List String), hs ≠ [] →
        tableScanSpec trs hs =
          (hs, trs.filterMap (fun tr =>
            if ((findAllN tr cellPred).map getText).isEmpty then none
            else some ((findAllN tr cellPred).map getText)))) := by
  constructor
  · intro el st
    cases hth : findN el (tagIs "thead") with
    | none =>
      have h1 := (tableRowsLoop_scan (bodyTrs el) (theadHeaders el) st).1
      have h2 := (tableRowsLoop_scan (bodyTrs el) (theadHeaders el) st).2
      simp only [theadHeaders, bodyTrs, hth] at h1 h2
      simp only [parseTable, hth, theadHeaders, bodyTrs, h1, h2]
      split <;> rfl
    | some thead =>
      have h1 := (tableRowsLoop_scan (bodyTrs el) (theadHeaders el)
        (extractLinksAll (findAllN thead (tagIs "th")) st)).1
      have h2 := (tableRowsLoop_scan (bodyTrs el) (theadHeaders el)
        (extractLinksAll (findAllN thead (tagIs "th")) st)).2
      simp only [theadHeaders, bodyTrs, hth] at h1 h2
      simp only [parseTable, hth, theadHeaders, bodyTrs, h1, h2]
      split <;> rfl
  · intro trs
    induction trs with
    | nil => intro hs h; simp [tableScanSpec]
    | cons tr rest ih =>
      intro hs h
      have hne : hs.isEmpty = false := by
        cases hs with
        | nil => exact absurd rfl h
        | cons a as => rfl
      simp only [tableScanSpec, hne, Bool.false_and, Bool.false_eq_true, if_false]
      rw [ih hs h]
      by_cases hrow : ((findAllN tr cellPred).map getText).isEmpty = true
      · simp [hrow, List.filterMap_cons]
      · simp only [Bool.not_eq_true] at hrow
        simp [hrow, List.filterMap_cons]

def w6tr : Node := .elem "tr" [] [] [.elem "td" [] [] [.text "1"]]

/-- Witness for C6 at one concrete non-header row against existing headers. -/
theorem claim6_table_extraction_characterization_witness :
    (["H"] : List String).isEmpty = false ∧
      tableScanSpec [w6tr] ["H"] = (["H"], [["1"]]) :=
  ⟨rfl,
   by rw [claim6_table_extraction_characterization.2 [w6tr] ["H"] (by simp)]; rfl⟩

/-! ## Claim C5: the Listing extractor and its marking -/

theorem extractLink_processed (a : Node) (st : PState) :
    (extractLink a st).processed = st.processed := by
  simp only [extractLink]
  split <;> rfl

theorem foldl_extractLink_processed : ∀ (xs : List Node) (st : PState),
    (xs.foldl (fun s a => extractLink a s) st).processed = st.processed := by
  intro xs
  induction xs with
  | nil => intro st; rfl
  | cons x rest ih =>
    intro st
    rw [List.foldl_cons, ih, extractLink_processed]

theorem extractLinks_processed (el : Node) (st : PState) :
    (extractLinks el st).processed = st.processed :=
  foldl_extractLink_processed _ _

/-- The Card extractor's returned block does not depend on the parser state. -/
theorem parseCard_fst_const (n : Node) (st st' : PState) :
    (parseCard n st).1 = (parseCard n st').1 := by
  simp only [parseCard]
  cases hfind : (findN n (hasClass "card-title")).orElse (fun _ => findN n (hasClass "teaser-title")) with
  | none =>
    cases hft : findN n (hasClass "card-text") <;> simp [hfind, hft] <;> split <;> rfl
  | some titleEl =>
    cases ha : findN titleEl anchorWithHref <;>
      cases hft : findN n (hasClass "card-text") <;>
        simp [hfind, ha, hft] <;> split <;> rfl

/-- The Card extractor never touches the visited set. -/
theorem parseCard_processed (n : Node) (st : PState) :
    (parseCard n st).2.processed = st.processed := by
  simp only [parseCard]
  cases hfind : (findN n (hasClass "card-title")).orElse (fun _ => findN n (hasClass "teaser-title")) with
  | none =>
    cases hft : findN n (hasClass "card-text") <;>
      simp [hfind, hft, extractLinks_processed, extractLink_processed] <;>
        split <;> simp [extractLinks_processed, extractLink_processed]
  | some titleEl =>
    cases ha : findN titleEl anchorWithHref <;>
      cases hft : findN n (hasClass "card-text") <;>
        simp [hfind, ha, hft, extractLinks_processed, extractLink_processed] <;>
          split <;> simp [extractLinks_processed, extractLink_processed]

/-- Follows the amended claim's words: the Listing extractor marks exactly the
subtrees of the found items whose Card extraction succeeded. -/
def successfulItemMarks : List (Node × List Nat) → List (List Nat)
  | [] => []
  | (n, q) :: rest =>
    (if ((parseCard n ⟨[], []⟩).1).isSome then
       q :: (descendantsWP n q).filterMap (fun x => if isElem x.1 then some x.2 else none)
     else []) ++ successfulItemMarks rest

theorem listingLoop_processed : ∀ (items : List (Node × List Nat)) (st : PState),
    (listingLoop items st).2.processed = st.processed ++ successfulItemMarks items := by
  intro items
  induction items with
  | nil => intro st; simp [listingLoop, successfulItemMarks]
  | cons x rest ih =>
    intro st
    obtain ⟨n, q⟩ := x
    have hconst := parseCard_fst_const n ⟨[], []⟩ st
    simp only [listingLoop, successfulItemMarks]
    cases hc : (parseCard n st).1 with
    | none =>
      have hsome : ((parseCard n ⟨[], []⟩).1).isSome = false := by
        rw [hconst, hc]; rfl
      simp only [hsome, Bool.false_eq_true, if_false, List.nil_append]
      rw [ih, parseCard_processed]
    | some c =>
      have hsome : ((parseCard n ⟨[], []⟩).1).isSome = true := by
        rw [hconst, hc]; rfl
      simp only [hsome, if_true]
      rw [ih]
      show (markProcessed n q (parseCard n st).2).processed ++ _ = _
      simp only [markProcessed]
      rw [parseCard_processed]
      simp [List.append_assoc]

theorem listingLoop_items_nil_iff : ∀ (items : List (Node × List Nat)) (st : PState),
    (listingLoop items st).1 = [] ↔
      ∀ x ∈ items, (parseCard x.1 ⟨[], []⟩).1 = none := by
  intro items
  induction items with
  | nil => intro st; simp [listingLoop]
  | cons x rest ih =>
    intro st
    obtain ⟨n, q⟩ := x
    have hconst := parseCard_fst_const n ⟨[], []⟩ st
    simp only [listingLoop]
    cases hc : (parseCard n st).1 with
    | none =>
      have h0 : (parseCard n ⟨[], []⟩).1 = none := by rw [hconst, hc]
      simp only [ih]
      constructor
      · intro hall x hx
        rcases List.mem_cons.mp hx with rfl | hm
        · exact h0
        · exact hall x hm
      · intro hall x hx
        exact hall x (List.mem_cons_of_mem _ hx)
    | some c =>
      have h0 : (parseCard n ⟨[], []⟩).1 = some c := by rw [hconst, hc]
      simp only [List.cons_ne_nil, false_iff]
      intro hall
      have := hall (n, q) (List.mem_cons_self _ _)
      rw [h0] at this
      cases this

/-- C5, amended: the Listing extractor runs every matching descendant (any
class token containing `listing-item` as a substring, or a token equal to
`card`) through the Card extractor; it returns null exactly when no card
results; ONLY an item whose Card extraction succeeded is marked visited
together with its subtree (a failed item is left unmarked by the Listing
extractor itself); and the variant of a produced listing is the first class
token with the `bcl-listing--` prefix, prefix stripped. -/
theorem claim5_listing_marks_only_successful_cards :
    (∀ (el : Node) (p : List Nat) (st : PState),
        ((parseListing el p st).1 = none ↔
          ∀ x ∈ findAllWP el p listingItemPred, (parseCard x.1 ⟨[], []⟩).1 = none)) ∧
    (∀ (el : Node) (p : List Nat) (st : PState),
        (parseListing el p st).2.processed =
          st.processed ++ successfulItemMarks (findAllWP el p listingItemPred)) ∧
    (∀ (el : Node) (p : List Nat) (st : PState) (v : Option String) (items : List Block),
        (parseListing el p st).1 = some (.listing v items) →
        v = (match (classesOf el).find? (fun c => strStarts c "bcl-listing--") with
             | some c => some (strReplace c "bcl-listing--" "")
             | none => none)) := by
  refine ⟨?_, ?_, ?_⟩
  · intro el p st
    have hl := listingLoop_items_nil_iff (findAllWP el p listingItemPred) st
    simp only [parseListing]
    by_cases he : (listingLoop (findAllWP el p listingItemPred) st).1.isEmpty = true
    · have he' : (listingLoop (findAllWP el p listingItemPred) st).1 = [] :=
        List.isEmpty_iff.mp he
      rw [if_pos he]
      exact iff_of_true rfl (fun x hx => hl.mp he' x hx)
    · have he' : ¬ (listingLoop (findAllWP el p listingItemPred) st).1 = [] :=
        fun hh => he (by rw [hh]; rfl)
      rw [if_neg he]
      exact iff_of_false (by simp) (fun hall => he' (hl.mpr hall))
  · intro el p st
    simp only [parseListing]
    split <;> exact listingLoop_processed _ _
  · intro el p st v items h
    simp only [parseListing] at h
    split at h
    · cases h
    · rw [Option.some_inj] at h
      have := congrArg (fun b => match b with
        | Block.listing v _ => v
        | _ => none) h
      simpa using this.symm

def w5good : Node :=
  .elem "div" ["bcl-listing", "bcl-listing--grid"] []
    [.elem "article" ["listing-item"] [] [.elem "h4" ["card-title"] [] [.text "T"]]]

/-- Witness for C5 on a listing with one successful card: the marking equation
holds concretely and the variant is the stripped class token. -/
theorem claim5_listing_marks_only_successful_cards_witness :
    (parseListing w5good [] ⟨[], []⟩).1 =
        some (.listing (some "grid") [Block.card "T" none none none none]) ∧
      (parseListing w5good [] ⟨[], []⟩).2.processed =
        ([] : List (List Nat)) ++ successfulItemMarks (findAllWP w5good [] listingItemPred) ∧
      some "grid" =
        (match (classesOf w5good).find? (fun c => strStarts c "bcl-listing--") with
         | some c => some (strReplace c "bcl-listing--" "")
         | none => none) :=
  ⟨rfl,
   claim5_listing_marks_only_successful_cards.2.1 w5good [] ⟨[], []⟩,
   claim5_listing_marks_only_successful_cards.2.2 w5good [] ⟨[], []⟩ (some "grid")
     [Block.card "T" none none none none] rfl⟩

/-! ## Claim C2: links recorded outside `_parse_file` satisfy the filter -/

def linksOk (ls : List Link) : Prop := ∀ l ∈ ls, linkOkB l = true

theorem extractLink_ok (a : Node) (st : PState) (h : linksOk st.links) :
    linksOk (extractLink a st).links := by
  simp only [extractLink]
  by_cases hg : (((getAttr a "href").getD "" == "") ||
      strStarts ((getAttr a "href").getD "") "#" ||
      strStarts ((getAttr a "href").getD "") "javascript:") = true
  · rw [if_pos hg]; exact h
  · rw [if_neg hg]
    simp only [Bool.or_eq_true, not_or, Bool.not_eq_true] at hg
    intro l hl
    rcases List.mem_append.mp hl with hm | hm
    · exact h l hm
    · rcases List.mem_singleton.mp hm with rfl
      by_cases ht : (getText a == "") = true
      · simp [linkOkB, ht, hg.1.1, hg.1.2, hg.2]
      · simp only [Bool.not_eq_true] at ht
        simp [linkOkB, ht, hg.1.1, hg.1.2, hg.2]

theorem foldl_extractLink_ok : ∀ (xs : List Node) (st : PState), linksOk st.links →
    linksOk ((xs.foldl (fun s a => extractLink a s) st)).links := by
  intro xs
  induction xs with
  | nil => intro st h; exact h
  | cons x rest ih =>
    intro st h
    rw [List.foldl_cons]
    exact ih _ (extractLink_ok x st h)

theorem extractLinks_ok (el : Node) (st : PState) (h : linksOk st.links) :
    linksOk (extractLinks el st).links :=
  foldl_extractLink_ok _ _ h

theorem extractLinksAll_ok : ∀ (els : List Node) (st : PState), linksOk st.links →
    linksOk (extractLinksAll els st).links := by
  intro els
  induction els with
  | nil => intro st h; exact h
  | cons e rest ih =>
    intro st h
    show linksOk ((rest.foldl (fun s e => extractLinks e s) (extractLinks e st))).links
    exact ih _ (extractLinks_ok e st h)

theorem parseHeading_ok (el : Node) (st : PState) (h : linksOk st.links) :
    linksOk (parseHeading el st).2.links := by
  simp only [parseHeading]
  split
  · exact h
  · exact extractLinks_ok el st h

theorem parseParagraph_ok (el : Node) (st : PState) (h : linksOk st.links) :
    linksOk (parseParagraph el st).2.links := by
  simp only [parseParagraph]
  split
  · exact h
  · exact extractLinks_ok el st h

theorem listItemsLoop_ok : ∀ (lis : List Node) (st : PState), linksOk st.links →
    linksOk (listItemsLoop lis st).2.links := by
  intro lis
  induction lis with
  | nil => intro st h; exact h
  | cons li rest ih =>
    intro st h
    simp only [listItemsLoop]
    split
    · exact ih st h
    · exact ih _ (extractLinks_ok li st h)

theorem parseList_ok (el : Node) (st : PState) (h : linksOk st.links) :
    linksOk (parseList el st).2.links := by
  simp only [parseList]
  split <;> exact listItemsLoop_ok _ st h

theorem tableRowsLoop_ok : ∀ (trs : List Node) (hs : List String) (st : PState),
    linksOk st.links → linksOk (tableRowsLoop trs hs st).2.2.links := by
  intro trs
  induction trs with
  | nil => intro hs st h; exact h
  | cons tr rest ih =>
    intro hs st h
    simp only [tableRowsLoop]
    split
    · exact ih _ _ (extractLinksAll_ok _ st h)
    · exact ih _ _ (extractLinksAll_ok _ st h)

theorem parseTable_ok (el : Node) (st : PState) (h : linksOk st.links) :
    linksOk (parseTable el st).2.links := by
  simp only [parseTable]
  cases hth : findN el (tagIs "thead") with
  | none => split <;> exact tableRowsLoop_ok _ _ _ h
  | some thead => split <;> exact tableRowsLoop_ok _ _ _ (extractLinksAll_ok _ st h)

theorem dlLoop_ok : ∀ (cs : List Node) (cur : Option String) (st : PState),
    linksOk st.links → linksOk (dlLoop cs cur st).2.2.links := by
  intro cs
  induction cs with
  | nil => intro cur st h; exact h
  | cons c rest ih =>
    intro cur st h
    cases c with
    | text s => exact ih cur st h
    | elem tag cls attrs children =>
      simp only [dlLoop]
      split
      · exact ih _ _ (extractLinks_ok _ st h)
      · split
        · exact ih _ _ (extractLinks_ok _ st h)
        · exact ih cur st h

theorem parseDescriptionList_ok (el : Node) (st : PState) (h : linksOk st.links) :
    linksOk (parseDescriptionList el st).2.links := by
  simp only [parseDescriptionList]
  split <;> exact dlLoop_ok _ none st h

theorem parseBanner_ok (el : Node) (st : PState) (h : linksOk st.links) :
    linksOk (parseBanner el st).2.links := by
  simp only [parseBanner]
  cases hT : (findN el (hasClass "content-banner-title")).orElse (fun _ => findN el (tagIs "h1")) <;>
    cases hC : (findN el (hasClass "content")).orElse (fun _ => findN el (hasClass "card-text")) <;>
      cases hA : findN el anchorWithHref <;>
        simp only [hT, hC, hA] <;> split <;>
          solve_by_elim [extractLink_ok, extractLinks_ok]

theorem parseDateBlock_ok (el : Node) (st : PState) (h : linksOk st.links) :
    linksOk (parseDateBlock el st).2.links := by
  simp only [parseDateBlock]
  split <;> exact h

theorem parseCard_ok (el : Node) (st : PState) (h : linksOk st.links) :
    linksOk (parseCard el st).2.links := by
  simp only [parseCard]
  cases hT : (findN el (hasClass "card-title")).orElse (fun _ => findN el (hasClass "teaser-title")) with
  | none =>
    cases hC : findN el (hasClass "card-text") <;>
      simp only [hT, hC] <;> split <;>
        solve_by_elim [extractLink_ok, extractLinks_ok]
  | some titleEl =>
    cases hA : findN titleEl anchorWithHref <;>
      cases hC : findN el (hasClass "card-text") <;>
        simp only [hT, hA, hC] <;> split <;>
          solve_by_elim [extractLink_ok, extractLinks_ok]

theorem listingLoop_ok : ∀ (items : List (Node × List Nat)) (st : PState),
    linksOk st.links → linksOk (listingLoop items st).2.links := by
  intro items
  induction items with
  | nil => intro st h; exact h
  | cons x rest ih =>
    intro st h
    obtain ⟨n, q⟩ := x
    simp only [listingLoop]
    cases hc : (parseCard n st).1 with
    | none => exact ih _ (parseCard_ok n st h)
    | some c =>
      show linksOk (listingLoop rest (markProcessed n q (parseCard n st).2)).2.links
      apply ih
      show linksOk (parseCard n st).2.links
      exact parseCard_ok n st h

theorem parseListing_ok (el : Node) (p : List Nat) (st : PState) (h : linksOk st.links) :
    linksOk (parseListing el p st).2.links := by
  simp only [parseListing]
  split <;> exact listingLoop_ok _ st h

theorem parseAlert_ok (el : Node) (st : PState) (h : linksOk st.links) :
    linksOk (parseAlert el st).2.links := by
  simp only [parseAlert]
  split <;> exact extractLinks_ok _ st h

mutual

/-- No element of the subtree (the node itself included) carries the
`bcl-file` component class, i.e. `_parse_file` can never be dispatched inside
it. -/
def cleanN : Node → Bool
  | .text _ => true
  | .elem _ classes _ cs => !(classes.contains "bcl-file") && cleanL cs

def cleanL : List Node → Bool
  | [] => true
  | c :: cs => cleanN c && cleanL cs

end

theorem cleanN_classes {n : Node} (h : cleanN n = true) :
    (classesOf n).contains "bcl-file" = false := by
  cases n with
  | text s => rfl
  | elem t cls a cs =>
    simp only [cleanN, Bool.and_eq_true, Bool.not_eq_true'] at h
    exact h.1

theorem cleanL_mem : ∀ {cs : List Node} {c : Node}, cleanL cs = true → c ∈ cs → cleanN c = true := by
  intro cs
  induction cs with
  | nil => intro c _ hc; cases hc
  | cons a as ih =>
    intro c h hc
    simp only [cleanL, Bool.and_eq_true] at h
    rcases List.mem_cons.mp hc with rfl | hm
    · exact h.1
    · exact ih h.2 hm

theorem cleanN_children {n c : Node} (h : cleanN n = true) (hc : c ∈ childrenOf n) :
    cleanN c = true := by
  cases n with
  | text s => cases hc
  | elem t cls a cs =>
    simp only [cleanN, Bool.and_eq_true] at h
    exact cleanL_mem h.2 hc

mutual

theorem clean_descendantsWP : ∀ (n : Node) (p : List Nat) (d : Node) (q : List Nat),
    cleanN n = true → (d, q) ∈ descendantsWP n p → cleanN d = true
  | .text _, _, _, _, _, hm => absurd hm (by simp [descendantsWP])
  | .elem t cls a cs, p, d, q, h, hm => by
    have hcl : cleanL cs = true := by
      simp only [cleanN, Bool.and_eq_true] at h
      exact h.2
    exact clean_descListWP cs p 0 d q hcl (by simpa [descendantsWP] using hm)

theorem clean_descListWP : ∀ (cs : List Node) (p : List Nat) (i : Nat) (d : Node) (q : List Nat),
    cleanL cs = true → (d, q) ∈ descListWP cs p i → cleanN d = true
  | [], _, _, _, _, _, hm => absurd hm (by simp [descListWP])
  | c :: cs, p, i, d, q, h, hm => by
    have h1 : cleanN c = true := by
      simp only [cleanL, Bool.and_eq_true] at h
      exact h.1
    have h2 : cleanL cs = true := by
      simp only [cleanL, Bool.and_eq_true] at h
      exact h.2
    simp only [descListWP] at hm
    rcases List.mem_cons.mp hm with heq | hm2
    · have hd : d = c := congrArg Prod.fst heq
      rw [hd]
      exact h1
    · rcases List.mem_append.mp hm2 with hm3 | hm4
      · exact clean_descendantsWP c (p ++ [i]) d q h1 hm3
      · exact clean_descListWP cs p (i + 1) d q h2 hm4

end

theorem matchSelectors_mem : ∀ (l : List (String × String)) (classes : List String) (m : String),
    matchSelectors l classes = some m → ∃ cls, (cls, m) ∈ l ∧ classes.contains cls = true := by
  intro l
  induction l with
  | nil => intro classes m hm; cases hm
  | cons x rest ih =>
    intro classes m hm
    obtain ⟨a, b⟩ := x
    simp only [matchSelectors] at hm
    by_cases hc : classes.contains a = true
    · rw [if_pos hc] at hm
      injection hm with he
      exact ⟨a, by simp [he], hc⟩
    · rw [if_neg hc] at hm
      obtain ⟨cls, hmem, hcc⟩ := ih classes m hm
      exact ⟨cls, List.mem_cons_of_mem _ hmem, hcc⟩

/-- Without `bcl-file` in the class set, the dispatch never selects
`_parse_file`. -/
theorem matchComponent_not_file {classes : List String}
    (h : classes.contains "bcl-file" = false) (m : String)
    (hm : matchComponent classes = some m) : (m == "_parse_file") = false := by
  obtain ⟨cls, hmem, hcc⟩ := matchSelectors_mem COMPONENT_SELECTORS classes m hm
  by_cases hfile : m = "_parse_file"
  · subst hfile
    have hcls : cls = "bcl-file" := by simpa [COMPONENT_SELECTORS] using hmem
    subst hcls
    rw [hcc] at h
    cases h
  · simp [hfile]

/-- Every link recorded by any amount of walking over a subtree free of
`bcl-file` components satisfies the `_extract_link` filter (induction over the
fuel of the mutually recursive walk). -/
theorem walkLinksOk : ∀ fuel : Nat,
    (∀ (el : Node) (p : List Nat) (st : PState), cleanN el = true → linksOk st.links →
        linksOk (parseChildrenF fuel el p st).2.links) ∧
    (∀ (items : List (Nat × Node)) (p : List Nat) (st : PState),
        (∀ x ∈ items, cleanN x.2 = true) → linksOk st.links →
        linksOk (parseChildListF fuel items p st).2.links) ∧
    (∀ (m : String) (el : Node) (p : List Nat) (st : PState),
        (m == "_parse_file") = false → cleanN el = true → linksOk st.links →
        linksOk (runExtractorF fuel m el p st).2.links) ∧
    (∀ (el : Node) (p : List Nat) (st : PState), cleanN el = true → linksOk st.links →
        linksOk (parseAccordionF fuel el p st).2.links) ∧
    (∀ (items : List (Node × List Nat)) (st : PState),
        (∀ x ∈ items, cleanN x.1 = true) → linksOk st.links →
        linksOk (accordionItemsF fuel items st).2.links) ∧
    (∀ (el : Node) (p : List Nat) (st : PState), cleanN el = true → linksOk st.links →
        linksOk (parseBlockquoteF fuel el p st).2.links) := by
  intro fuel
  induction fuel with
  | zero =>
    refine ⟨?_, ?_, ?_, ?_, ?_, ?_⟩ <;> intros <;> assumption
  | succ f ih =>
    obtain ⟨ihC, ihL, ihE, ihA, ihI, ihB⟩ := ih
    refine ⟨?_, ?_, ?_, ?_, ?_, ?_⟩
    · -- parseChildrenF
      intro el p st hcl h
      simp only [parseChildrenF]
      apply ihL _ p st _ h
      intro x hx
      exact cleanN_children hcl (snd_mem_of_mem_enumFrom _ _ _ (by simpa [List.enum] using hx))
    · -- parseChildListF
      intro items p st hclean h
      cases items with
      | nil => exact h
      | cons x rest =>
        obtain ⟨i, child⟩ := x
        have hch : cleanN child = true := hclean (i, child) (List.mem_cons_self _ _)
        have hrest : ∀ x ∈ rest, cleanN x.2 = true :=
          fun x hx => hclean x (List.mem_cons_of_mem _ hx)
        simp only [parseChildListF]
        by_cases hskip : shouldSkip child (p ++ [i]) st = true
        · rw [if_pos hskip]
          exact ihL rest p st hrest h
        · rw [if_neg hskip]
          cases hm : matchComponent (classesOf child) with
          | some m =>
            have hmf : (m == "_parse_file") = false :=
              matchComponent_not_file (cleanN_classes hch) m hm
            simp only
            apply ihL rest p _ hrest
            rw [markProcessed_links]
            exact ihE m child (p ++ [i]) st hmf hch h
          | none =>
            simp only
            by_cases h1 : HEADING_TAGS.contains (tagOf child) = true
            · rw [if_pos h1]
              exact ihL rest p _ hrest (parseHeading_ok child st h)
            · rw [if_neg h1]
              by_cases h2 : (tagOf child == "p") = true
              · rw [if_pos h2]
                exact ihL rest p _ hrest (parseParagraph_ok child st h)
              · rw [if_neg h2]
                by_cases h3 : (tagOf child == "table") = true
                · rw [if_pos h3]
                  apply ihL rest p _ hrest
                  rw [markProcessed_links]
                  exact parseTable_ok child st h
                · rw [if_neg h3]
                  by_cases h4 : (tagOf child == "ul" || tagOf child == "ol") = true
                  · rw [if_pos h4]
                    apply ihL rest p _ hrest
                    rw [markProcessed_links]
                    exact parseList_ok child st h
                  · rw [if_neg h4]
                    by_cases h5 : (tagOf child == "dl") = true
                    · rw [if_pos h5]
                      apply ihL rest p _ hrest
                      rw [markProcessed_links]
                      exact parseDescriptionList_ok child st h
                    · rw [if_neg h5]
                      by_cases h6 : (tagOf child == "blockquote") = true
                      · rw [if_pos h6]
                        apply ihL rest p _ hrest
                        rw [markProcessed_links]
                        exact ihB child (p ++ [i]) st hch h
                      · rw [if_neg h6]
                        by_cases h7 : (tagOf child == "a") = true
                        · rw [if_pos h7]
                          exact ihL rest p _ hrest (extractLink_ok child st h)
                        · rw [if_neg h7]
                          apply ihL rest p _ hrest
                          exact ihC child (p ++ [i]) st hch h
    · -- runExtractorF
      intro m el p st hmf hcl h
      simp only [runExtractorF]
      rw [if_neg (by simp [hmf])]
      by_cases h1 : (m == "_parse_accordion") = true
      · rw [if_pos h1]
        exact ihA el p st hcl h
      · rw [if_neg h1]
        by_cases h2 : (m == "_parse_banner") = true
        · rw [if_pos h2]
          exact parseBanner_ok el st h
        · rw [if_neg h2]
          by_cases h3 : (m == "_parse_listing") = true
          · rw [if_pos h3]
            exact parseListing_ok el p st h
          · rw [if_neg h3]
            by_cases h4 : (m == "_parse_date_block") = true
            · rw [if_pos h4]
              exact parseDateBlock_ok el st h
            · rw [if_neg h4]
              by_cases h5 : (m == "_parse_card") = true
              · rw [if_pos h5]
                exact parseCard_ok el st h
              · rw [if_neg h5]
                by_cases h6 : (m == "_parse_alert") = true
                · rw [if_pos h6]
                  exact parseAlert_ok el st h
                · rw [if_neg h6]
                  exact h
    · -- parseAccordionF
      intro el p st hcl h
      simp only [parseAccordionF]
      have hok : linksOk (accordionItemsF f (findAllWP el p (hasClass "accordion-item")) st).2.links := by
        apply ihI _ st _ h
        intro x hx
        exact clean_descendantsWP el p x.1 x.2 hcl
          (by rw [Prod.mk.eta]; exact mem_of_findAllWP hx)
      split <;> exact hok
    · -- accordionItemsF
      intro items st hitems h
      cases items with
      | nil => exact h
      | cons x rest =>
        obtain ⟨itemEl, q⟩ := x
        have hitem : cleanN itemEl = true := hitems (itemEl, q) (List.mem_cons_self _ _)
        have hrest : ∀ x ∈ rest, cleanN x.1 = true :=
          fun x hx => hitems x (List.mem_cons_of_mem _ hx)
        simp only [accordionItemsF]
        cases hb : findWP itemEl q (hasClass "accordion-body") with
        | none =>
          simp only
          exact ihI rest st hrest h
        | some bodyWP =>
          simp only
          apply ihI rest _ hrest
          have hbody : cleanN bodyWP.1 = true :=
            clean_descendantsWP itemEl q bodyWP.1 bodyWP.2 hitem
              (by rw [Prod.mk.eta]; exact mem_of_findWP hb)
          exact ihC bodyWP.1 bodyWP.2 st hbody h
    · -- parseBlockquoteF
      intro el p st hcl h
      simp only [parseBlockquoteF]
      split <;>
        first
          | exact ihC el p st hcl h
          | (split <;> exact ihC el p st hcl h)

/-- C2, amended: for every input DOM that contains no `bcl-file` component,
every Link in the output has a non-empty href that starts with neither `#` nor
`javascript:`, and non-empty text (the href being substituted when the anchor
has no visible text).  The Link recorded by the File extractor is the one
exception in the code: it is appended directly with the raw href and the
file title (possibly empty), bypassing the `_extract_link` filter — see the
counterexample. -/
theorem claim2_links_filtered_outside_file_component (main : Node)
    (h : cleanN main = true) :
    ∀ l ∈ (emaParse main).links, linkOkB l = true :=
  (walkLinksOk (fuelFor main)).1 main [] ⟨[], []⟩ h (fun _ hl => absurd hl (List.not_mem_nil _))

def w2dom : Node :=
  .elem "main" [] []
    [.elem "p" [] [] [.text "Hi ", .elem "a" [] [("href", "/x")] []]]

/-- Witness for C2 on a clean page whose anchor has no visible text: the href
is substituted as the link text and the produced link satisfies the
invariant. -/
theorem claim2_links_filtered_outside_file_component_witness :
    cleanN w2dom = true ∧ (emaParse w2dom).links = [⟨"/x", "/x"⟩] ∧
      linkOkB ⟨"/x", "/x"⟩ = true :=
  ⟨rfl, rfl,
   claim2_links_filtered_outside_file_component w2dom rfl ⟨"/x", "/x"⟩
     (by rw [show (emaParse w2dom).links = [⟨"/x", "/x"⟩] from rfl]
         exact List.mem_cons_self _ _)⟩
